import Mathlib

/-!
Verification of the schema-migration subsystem of the go-postgres repository.

The development shallowly embeds the Go sources:
  * `migration.go` — the SQL-script tokenizer `CreateMigrationStepsFromSqlContent`
    with its helpers (`shouldIgnoreLine`, `findEol`, `skipSpaces`, `skipEol`,
    `truncStrBytes`), the executor `RunMigrations`, and `getMigrationLockId`;
  * the connection/transaction wrappers (`Conn.Exec`, `Conn.WithinTx`, `Tx.Exec`,
    `rowGetter.Scan`, `Database.WithinConn`) and the error-classification layer
    (`newError`, `processError`, `IsNoRowsError`);
  * `New` with its SHA-256 hash of the configured database name.

Go strings are byte sequences; they are modelled as `List Nat` with every
element a byte value.  Go's `unicode/utf8` decoding used by the tokenizer is
reproduced below (`decodeRune`, `decodeLastRune`, `encodeRune`).
-/

/-- A Go string, viewed as its byte sequence. -/
abbrev GoStr := List Nat

/-- Go `utf8.RuneError` (U+FFFD). -/
def RuneError : Nat := 65533

/-- First-byte classification of Go's `utf8` decoder: for a multi-byte leading
byte, the sequence size and the accepted range of the second byte
(`acceptRanges` in Go's `unicode/utf8`).  `none` for bytes that cannot lead a
multi-byte sequence. -/
def utf8AcceptRange (b0 : Nat) : Option (Nat × Nat × Nat) :=
  if 0xC2 ≤ b0 ∧ b0 ≤ 0xDF then some (2, 0x80, 0xBF)
  else if b0 = 0xE0 then some (3, 0xA0, 0xBF)
  else if 0xE1 ≤ b0 ∧ b0 ≤ 0xEC then some (3, 0x80, 0xBF)
  else if b0 = 0xED then some (3, 0x80, 0x9F)
  else if 0xEE ≤ b0 ∧ b0 ≤ 0xEF then some (3, 0x80, 0xBF)
  else if b0 = 0xF0 then some (4, 0x90, 0xBF)
  else if 0xF1 ≤ b0 ∧ b0 ≤ 0xF3 then some (4, 0x80, 0xBF)
  else if b0 = 0xF4 then some (4, 0x80, 0x8F)
  else none

/-- Go `utf8.DecodeRuneInString`: decode the first rune of a byte sequence,
returning the rune value and its size.  Invalid or incomplete encodings
(including surrogates and overlong forms, which `utf8AcceptRange` excludes)
yield `(RuneError, 1)`; the empty string yields `(RuneError, 0)`.  Go checks
`n < sz` before inspecting the continuation bytes while this definition checks
the bytes that are present first; both orders return `(RuneError, 1)` in every
divergence, so the results agree. -/
def decodeRune : GoStr → Nat × Nat
  | [] => (RuneError, 0)
  | b0 :: rest =>
    if b0 < 0x80 then (b0, 1)
    else
      match utf8AcceptRange b0 with
      | none => (RuneError, 1)
      | some (sz, lo, hi) =>
        match rest with
        | [] => (RuneError, 1)
        | b1 :: rest2 =>
          if b1 < lo ∨ hi < b1 then (RuneError, 1)
          else if sz = 2 then ((b0 % 0x20) * 0x40 + b1 % 0x40, 2)
          else
            match rest2 with
            | [] => (RuneError, 1)
            | b2 :: rest3 =>
              if b2 < 0x80 ∨ 0xBF < b2 then (RuneError, 1)
              else if sz = 3 then
                ((b0 % 0x10) * 0x1000 + (b1 % 0x40) * 0x40 + b2 % 0x40, 3)
              else
                match rest3 with
                | [] => (RuneError, 1)
                | b3 :: _ =>
                  if b3 < 0x80 ∨ 0xBF < b3 then (RuneError, 1)
                  else
                    ((b0 % 8) * 0x40000 + (b1 % 0x40) * 0x1000 +
                      (b2 % 0x40) * 0x40 + b3 % 0x40, 4)

/-- Go `utf8.RuneStart`: true unless the byte is a continuation byte. -/
def runeStart (b : Nat) : Bool := b / 0x40 ≠ 2

/-- Downward scan used by `utf8.DecodeLastRuneInString`: starting at index `i`
and stopping at `lim`, find the highest index `≤ i` whose byte starts a rune. -/
def scanRuneStart (l : GoStr) (lim i : Nat) : Option Nat :=
  if runeStart (l.getD i 0) then some i
  else if h : i ≤ lim then none
  else scanRuneStart l lim (i - 1)
termination_by i
decreasing_by omega

/-- Go `utf8.DecodeLastRuneInString`: decode the final rune of a byte
sequence.  Mirrors Go's backward scan over at most `utf8.UTFMax` bytes and its
size cross-check. -/
def decodeLastRune (l : GoStr) : Nat × Nat :=
  let n := l.length
  if n = 0 then (RuneError, 0)
  else
    let lastB := l.getD (n - 1) 0
    if lastB < 0x80 then (lastB, 1)
    else
      -- `lim` is Go's `end - utf8.UTFMax` clamped at zero; `Nat` subtraction
      -- performs the clamp.  When no rune start is found the Go loop leaves
      -- `start = lim - 1` (clamped at zero), which `Nat` subtraction models.
      let lim := n - 4
      let start :=
        match scanRuneStart l lim (n - 2) with
        | some i => i
        | none => lim - 1
      let (r, size) := decodeRune (l.drop start)
      if start + size ≠ n then (RuneError, 1) else (r, size)

/-- Go `utf8.EncodeRune` (as used by `strings.Builder.WriteRune`): the UTF-8
byte sequence of a rune, with surrogates and out-of-range values mapped to the
encoding of `RuneError`. -/
def encodeRune (r : Nat) : GoStr :=
  if r < 0x80 then [r]
  else if r < 0x800 then [0xC0 + r / 0x40, 0x80 + r % 0x40]
  else if (0xD800 ≤ r ∧ r ≤ 0xDFFF) ∨ 0x10FFFF < r then [0xEF, 0xBF, 0xBD]
  else if r < 0x10000 then
    [0xE0 + r / 0x1000, 0x80 + r / 0x40 % 0x40, 0x80 + r % 0x40]
  else
    [0xF0 + r / 0x40000, 0x80 + r / 0x1000 % 0x40,
      0x80 + r / 0x40 % 0x40, 0x80 + r % 0x40]

/-- Go `[]byte(s)` for a Lean string literal: UTF-8 bytes of its characters. -/
def strBytes (s : String) : GoStr :=
  s.data.foldr (fun c acc => encodeRune c.toNat ++ acc) []

/-- `skipSpaces` from `migration.go`: the number of leading spaces/tabs. -/
def skipSpaces : GoStr → Nat
  | [] => 0
  | b :: rest => if b = 32 ∨ b = 9 then skipSpaces rest + 1 else 0

/-- `skipEol` from `migration.go`: the number of leading CR/LF bytes. -/
def skipEol : GoStr → Nat
  | [] => 0
  | b :: rest => if b = 13 ∨ b = 10 then skipEol rest + 1 else 0

/-- `findEol` from `migration.go`: index of the first LF or CR byte, or the
length when neither occurs (Go computes this as the minimum of the two
`strings.IndexByte` results). -/
def findEol : GoStr → Nat
  | [] => 0
  | b :: rest => if b = 10 ∨ b = 13 then 0 else findEol rest + 1

/-- `shouldIgnoreLine` from `migration.go`: a positive count of bytes to skip
when the current line is blank, empty, or is a comment whose `#` is preceded
by at least one blank; zero when the line must be processed. -/
def shouldIgnoreLine (s : GoStr) : Nat :=
  let ofs := skipSpaces s
  if s.length ≤ ofs then ofs
  else
    let b := s.getD ofs 0
    if b = 13 ∨ b = 10 then ofs + skipEol (s.drop ofs)
    else if b = 35 ∧ 0 < ofs then
      let o2 := ofs + findEol (s.drop ofs)
      o2 + skipEol (s.drop o2)
    else 0

/-- Membership in the cutset `" \t-=#"` of the `strings.Trim` call in
`CreateMigrationStepsFromSqlContent`. -/
def isTrimCut (b : Nat) : Bool := b = 32 ∨ b = 9 ∨ b = 45 ∨ b = 61 ∨ b = 35

/-- Go `strings.Trim(s, " \t-=#")`.  Go trims decoded runes; since every
cutset element is ASCII and ASCII bytes only occur in UTF-8 as complete
one-byte runes, byte-level trimming is equivalent. -/
def trimCutset (s : GoStr) : GoStr :=
  ((s.dropWhile isTrimCut).reverse.dropWhile isTrimCut).reverse

/-- The byte-trimming loop of `truncStrBytes`: drop trailing bytes one at a
time until the final rune decodes as a valid (non-`RuneError`) rune. -/
def truncStrBytesLoop (t : GoStr) : GoStr :=
  if h : t.length = 0 then t
  else
    let p := decodeLastRune t
    if p.1 ≠ RuneError then t
    else if p.2 = 0 then []
    else truncStrBytesLoop (t.take (t.length - 1))
termination_by t.length
decreasing_by
  simp only [List.length_take]
  omega

/-- `truncStrBytes` from `migration.go`: truncate a byte string to at most
`maxBytes` bytes, then trim trailing bytes until the result ends in a valid
rune, so that no multi-byte character is split. -/
def truncStrBytes (s : GoStr) (maxBytes : Nat) : GoStr :=
  if s.length ≤ maxBytes then s
  else truncStrBytesLoop (s.take maxBytes)

/-- `MigrationStep` from `migration.go`: a named, numbered SQL sentence. -/
structure MigrationStep where
  name : GoStr
  sequenceNo : Nat
  sql : GoStr
  deriving Repr, DecidableEq

/-- The single-quoted string scanner of `CreateMigrationStepsFromSqlContent`
(migration.go lines 119-152), operating on the bytes that follow the opening
quote.  Returns the number of bytes consumed, up to and including the closing
quote; a quote immediately followed by another quote is a doubled-quote escape
and scanning continues. -/
def singleQuoteLoop (s : GoStr) : Except String Nat :=
  if h0 : s.length = 0 then .error "invalid SQL content (open string)"
  else
    match hd : decodeRune s with
    | (r, rSize) =>
      if hr : r = RuneError ∨ rSize = 0 then .error "invalid SQL content (invalid char)"
      else if r = 39 then
        match s.drop rSize with
        | 39 :: _ =>
          match singleQuoteLoop (s.drop (rSize + 1)) with
          | .error e => .error e
          | .ok n => .ok (rSize + 1 + n)
        | _ => .ok rSize
      else
        match singleQuoteLoop (s.drop rSize) with
        | .error e => .error e
        | .ok n => .ok (rSize + n)
termination_by s.length
decreasing_by
  · simp only [List.length_drop]; omega
  · simp only [List.length_drop]; omega

/-- The double-quoted string scanner of `CreateMigrationStepsFromSqlContent`
(migration.go lines 154-194): a backslash escapes the following rune; the
first unescaped double quote ends the string. -/
def doubleQuoteLoop (s : GoStr) (escaped : Bool) : Except String Nat :=
  if h0 : s.length = 0 then .error "invalid SQL content (open string)"
  else
    match hd : decodeRune s with
    | (r, rSize) =>
      if hr : r = RuneError ∨ rSize = 0 then .error "invalid SQL content (invalid char)"
      else if escaped then
        match doubleQuoteLoop (s.drop rSize) false with
        | .error e => .error e
        | .ok n => .ok (rSize + n)
      else if r = 34 then .ok rSize
      else
        match doubleQuoteLoop (s.drop rSize) (r = 92) with
        | .error e => .error e
        | .ok n => .ok (rSize + n)
termination_by s.length
decreasing_by
  · simp only [List.length_drop]; omega
  · simp only [List.length_drop]; omega

/-- Byte test of the dollar-tag scanner: `_`, `0-9`, `A-Z`, `a-z`. -/
def isTagChar (b : Nat) : Bool :=
  b = 95 ∨ (48 ≤ b ∧ b ≤ 57) ∨ (65 ≤ b ∧ b ≤ 90) ∨ (97 ≤ b ∧ b ≤ 122)

/-- The dollar-tag scanner of `CreateMigrationStepsFromSqlContent`
(migration.go lines 201-215), on the bytes after the opening `$`: consume tag
characters until a closing `$` (returning the consumed count including that
`$`); any other byte, or end of input, is a fatal error. -/
def dollarTagLoop : GoStr → Except String Nat
  | [] => .error "invalid SQL content (dollar tag)"
  | b :: rest =>
    if b = 36 then .ok 1
    else if isTagChar b then
      match dollarTagLoop rest with
      | .error e => .error e
      | .ok n => .ok (n + 1)
    else .error "invalid SQL content (dollar tag)"

/-- Whether `needle` occurs at the start of `hay`. -/
def startsWith : GoStr → GoStr → Bool
  | _, [] => true
  | [], _ :: _ => false
  | a :: as, b :: bs => a = b && startsWith as bs

/-- Go `strings.Index`: the first index at which `needle` occurs in `hay`, or
`-1` when it does not occur. -/
def stringsIndex (hay needle : GoStr) : Int :=
  if startsWith hay needle then 0
  else
    match hay with
    | [] => -1
    | _ :: rest =>
      let r := stringsIndex rest needle
      if r < 0 then -1 else r + 1

/-- The inner statement loop of `CreateMigrationStepsFromSqlContent`
(migration.go lines 74-260), including the flush of a pending statement at end
of input.  `s` is the unread content, `sql` the statement builder, `addSpace`
the pending-whitespace flag; returns the content remaining after the statement
terminator together with the extended step list and sequence counter. -/
def parseSentence (s : GoStr) (sql : GoStr) (addSpace : Bool) (name : GoStr)
    (seqNo : Nat) (steps : List MigrationStep) :
    Except String (GoStr × List MigrationStep × Nat) :=
  match s with
  | [] =>
    if 0 < sql.length then
      .ok ([], steps ++ [⟨name, seqNo, sql ++ [59]⟩], seqNo + 1)
    else .ok ([], steps, seqNo)
  | b :: rest =>
    if h1 : 0 < skipSpaces (b :: rest) then
      parseSentence ((b :: rest).drop (skipSpaces (b :: rest))) sql true name seqNo steps
    else if h2 : 0 < skipEol (b :: rest) then
      parseSentence ((b :: rest).drop (skipEol (b :: rest))) sql true name seqNo steps
    else if b = 35 then
      parseSentence (rest.drop (findEol rest)) sql true name seqNo steps
    else if b = 59 then
      if 0 < sql.length then
        .ok (rest, steps ++ [⟨name, seqNo, sql ++ [59]⟩], seqNo + 1)
      else .ok (rest, steps, seqNo)
    else if b = 39 then
      match singleQuoteLoop rest with
      | .error e => .error e
      | .ok n =>
        parseSentence (rest.drop n)
          ((if addSpace then sql ++ [32] else sql) ++ (b :: rest.take n))
          false name seqNo steps
    else if b = 34 then
      match doubleQuoteLoop rest false with
      | .error e => .error e
      | .ok n =>
        parseSentence (rest.drop n)
          ((if addSpace then sql ++ [32] else sql) ++ (b :: rest.take n))
          false name seqNo steps
    else if b = 36 then
      match dollarTagLoop rest with
      | .error e => .error e
      | .ok n =>
        let tag := b :: rest.take n
        let d := stringsIndex (rest.drop n) tag
        if d < 0 then .error "invalid SQL content (open dollar tag)"
        else
          parseSentence (rest.drop (n + d.toNat + tag.length))
            ((if addSpace then sql ++ [32] else sql) ++
              (b :: rest.take (n + d.toNat + tag.length)))
            false name seqNo steps
    else
      match hd : decodeRune (b :: rest) with
      | (r, rSize) =>
        if hr : r = RuneError ∨ rSize = 0 then .error "invalid SQL content (invalid char)"
        else
          parseSentence ((b :: rest).drop rSize)
            ((if addSpace then sql ++ [32] else sql) ++ encodeRune r)
            false name seqNo steps
termination_by s.length
decreasing_by
  · simp only [List.length_drop, List.length_cons]; omega
  · simp only [List.length_drop, List.length_cons]; omega
  · simp only [List.length_drop, List.length_cons]; omega
  · simp only [List.length_drop, List.length_cons]; omega
  · simp only [List.length_drop, List.length_cons]; omega
  · simp only [List.length_drop, List.length_cons]; omega
  · simp only [List.length_drop, List.length_cons]; omega


/-- A byte that receives no special treatment in the statement loop: ASCII and
none of blank, end of line, `#`, `;`, a quote, or `$`. -/
def plainByte (b : Nat) : Bool :=
  b < 128 && ¬(b = 32 ∨ b = 9 ∨ b = 13 ∨ b = 10 ∨ b = 35 ∨ b = 59 ∨
    b = 39 ∨ b = 34 ∨ b = 36)

/-- Unfolding of the statement loop at end of input: a pending non-empty
statement is flushed as a final step with a `;` appended. -/
def ps_nil (sql : GoStr) (a : Bool) (n : GoStr) (q : Nat) (st : List MigrationStep) :
    parseSentence [] sql a n q st =
      if 0 < sql.length then .ok ([], st ++ [⟨n, q, sql ++ [59]⟩], q + 1)
      else .ok ([], st, q) := by
  rw [parseSentence.eq_def]

/-- Unfolding of the statement loop on leading blanks. -/
def ps_space (b : Nat) (rest sql : GoStr) (a : Bool) (n : GoStr) (q : Nat)
    (st : List MigrationStep) (h1 : 0 < skipSpaces (b :: rest)) :
    parseSentence (b :: rest) sql a n q st =
      parseSentence ((b :: rest).drop (skipSpaces (b :: rest))) sql true n q st := by
  rw [parseSentence.eq_def]
  simp only [dif_pos h1]

/-- Unfolding of the statement loop on leading end-of-line bytes. -/
def ps_eol (b : Nat) (rest sql : GoStr) (a : Bool) (n : GoStr) (q : Nat)
    (st : List MigrationStep) (h1 : ¬0 < skipSpaces (b :: rest))
    (h2 : 0 < skipEol (b :: rest)) :
    parseSentence (b :: rest) sql a n q st =
      parseSentence ((b :: rest).drop (skipEol (b :: rest))) sql true n q st := by
  rw [parseSentence.eq_def]
  simp only [dif_neg h1, dif_pos h2]

/-- Unfolding of the statement loop on an inline `#` comment: the rest of the
line is discarded and a pending space is recorded. -/
def ps_hash (rest sql : GoStr) (a : Bool) (n : GoStr) (q : Nat)
    (st : List MigrationStep) :
    parseSentence (35 :: rest) sql a n q st =
      parseSentence (rest.drop (findEol rest)) sql true n q st := by
  rw [parseSentence.eq_def]
  simp [skipSpaces, skipEol]

/-- Unfolding of the statement loop on a statement terminator. -/
def ps_semi (rest sql : GoStr) (a : Bool) (n : GoStr) (q : Nat)
    (st : List MigrationStep) :
    parseSentence (59 :: rest) sql a n q st =
      if 0 < sql.length then .ok (rest, st ++ [⟨n, q, sql ++ [59]⟩], q + 1)
      else .ok (rest, st, q) := by
  rw [parseSentence.eq_def]
  simp [skipSpaces, skipEol]

/-- Unfolding of the statement loop at an opening single quote. -/
def ps_squote (rest sql : GoStr) (a : Bool) (n : GoStr) (q : Nat)
    (st : List MigrationStep) :
    parseSentence (39 :: rest) sql a n q st =
      match singleQuoteLoop rest with
      | .error e => .error e
      | .ok k =>
        parseSentence (rest.drop k)
          ((if a then sql ++ [32] else sql) ++ (39 :: rest.take k)) false n q st := by
  rw [parseSentence.eq_def]
  simp [skipSpaces, skipEol]

/-- Unfolding of the statement loop at an opening double quote. -/
def ps_dquote (rest sql : GoStr) (a : Bool) (n : GoStr) (q : Nat)
    (st : List MigrationStep) :
    parseSentence (34 :: rest) sql a n q st =
      match doubleQuoteLoop rest false with
      | .error e => .error e
      | .ok k =>
        parseSentence (rest.drop k)
          ((if a then sql ++ [32] else sql) ++ (34 :: rest.take k)) false n q st := by
  rw [parseSentence.eq_def]
  simp [skipSpaces, skipEol]

/-- Unfolding of the statement loop at a `$`: scan the tag, then search for
its next occurrence; the whole span is copied and scanning resumes after it. -/
def ps_dollar (rest sql : GoStr) (a : Bool) (n : GoStr) (q : Nat)
    (st : List MigrationStep) :
    parseSentence (36 :: rest) sql a n q st =
      match dollarTagLoop rest with
      | .error e => .error e
      | .ok k =>
        if stringsIndex (rest.drop k) (36 :: rest.take k) < 0 then
          .error "invalid SQL content (open dollar tag)"
        else
          parseSentence
            (rest.drop (k + (stringsIndex (rest.drop k) (36 :: rest.take k)).toNat +
              (36 :: rest.take k).length))
            ((if a then sql ++ [32] else sql) ++
              (36 :: rest.take (k + (stringsIndex (rest.drop k) (36 :: rest.take k)).toNat +
                (36 :: rest.take k).length)))
            false n q st := by
  rw [parseSentence.eq_def]
  simp [skipSpaces, skipEol]

/-- ASCII decoding: a byte below `0x80` is its own one-byte rune. -/
def decodeRune_ascii (b : Nat) (rest : GoStr) (hb : b < 128) :
    decodeRune (b :: rest) = (b, 1) := by
  rw [decodeRune.eq_def]
  simp [hb]

/-- ASCII encoding: a rune below `0x80` encodes as its own single byte. -/
def encodeRune_ascii (b : Nat) (hb : b < 128) : encodeRune b = [b] := by
  rw [encodeRune]
  simp [hb]

/-- Unfolding of the statement loop at a plain byte: the byte is appended to
the statement (preceded by a single space when one is pending). -/
def ps_plain (b : Nat) (rest sql : GoStr) (a : Bool) (n : GoStr) (q : Nat)
    (st : List MigrationStep) (hb : plainByte b = true) :
    parseSentence (b :: rest) sql a n q st =
      parseSentence rest ((if a then sql ++ [32] else sql) ++ [b]) false n q st := by
  simp only [plainByte, Bool.and_eq_true, decide_eq_true_eq, Bool.not_eq_eq_eq_not,
    Bool.not_true, decide_eq_false_iff_not] at hb
  obtain ⟨hlt, hne⟩ := hb
  push_neg at hne
  obtain ⟨n32, n9, n13, n10, n35, n59, n39, n34, n36⟩ := hne
  have hss : skipSpaces (b :: rest) = 0 := by simp [skipSpaces, n32, n9]
  have hse : skipEol (b :: rest) = 0 := by simp [skipEol, n13, n10]
  have h1 : ¬0 < skipSpaces (b :: rest) := by omega
  have h2 : ¬0 < skipEol (b :: rest) := by omega
  rw [parseSentence.eq_def]
  simp only [dif_neg h1, dif_neg h2, if_neg n35, if_neg n59, if_neg n39,
    if_neg n34, if_neg n36]
  rw [decodeRune_ascii b rest hlt]
  have hre : ¬(b = RuneError ∨ (1 : Nat) = 0) := by
    simp only [RuneError]
    omega
  simp only [dif_neg hre]
  rw [encodeRune_ascii b hlt]
  simp

/-- The statement loop consumes at least one byte before handing its remainder
back to the outer loop (the remainder is empty when the input was): needed for
termination of the outer loop and for the block-structure arguments below. -/
def parseSentence_rem (s sql : GoStr) (a : Bool) (n : GoStr) (q : Nat)
    (st : List MigrationStep) :
    ∀ (r : GoStr) (st2 : List MigrationStep) (q2 : Nat),
      parseSentence s sql a n q st = .ok (r, st2, q2) → r.length ≤ s.length - 1 := by
  induction s, sql, a, n, q, st using parseSentence.induct <;> intro r st2 q2 h
  · rw [ps_nil] at h
    split at h <;> simp_all
  · rw [ps_nil] at h
    split at h <;> simp_all
  · rename_i b0 rest h1 ih
    rw [ps_space _ _ _ _ _ _ _ h1] at h
    have hx := ih _ _ _ h
    simp only [List.length_drop, List.length_cons] at hx ⊢
    omega
  · rename_i b0 rest h1 h2 ih
    rw [ps_eol _ _ _ _ _ _ _ h1 h2] at h
    have hx := ih _ _ _ h
    simp only [List.length_drop, List.length_cons] at hx ⊢
    omega
  · rename_i rest h1 h2 ih
    rw [ps_hash] at h
    have hx := ih _ _ _ h
    simp only [List.length_drop, List.length_cons] at hx ⊢
    omega
  · rename_i rest hsql h1 h2 h3
    rw [ps_semi] at h
    split at h <;> simp_all
  · rename_i rest hsql h1 h2 h3
    rw [ps_semi] at h
    split at h <;> simp_all
  · rename_i e heq h1 h2 h3 h4
    rw [ps_squote] at h
    rw [heq] at h
    exact absurd h (by simp)
  · rename_i k heq h1 h2 h3 h4 ih
    rw [ps_squote] at h
    rw [heq] at h
    have hx := ih _ _ _ h
    simp only [List.length_drop, List.length_cons] at hx ⊢
    omega
  · rename_i e heq h1 h2 h3 h4 h5
    rw [ps_dquote] at h
    rw [heq] at h
    exact absurd h (by simp)
  · rename_i k heq h1 h2 h3 h4 h5 ih
    rw [ps_dquote] at h
    rw [heq] at h
    have hx := ih _ _ _ h
    simp only [List.length_drop, List.length_cons] at hx ⊢
    omega
  · rename_i e heq h1 h2 h3 h4 h5 h6
    rw [ps_dollar] at h
    rw [heq] at h
    exact absurd h (by simp)
  · rename_i heq c1 c2 c3 c4 c5 c6 tg dl hd
    rw [ps_dollar] at h
    simp only [heq] at h
    split at h
    · exact absurd h (by simp)
    · rename_i hcond
      exact absurd hd hcond
  · rename_i heq c1 c2 c3 c4 c5 c6 tg dl hd ih
    rw [ps_dollar] at h
    simp only [heq] at h
    split at h
    · rename_i hcond
      exact absurd h (by simp)
    · have hx := ih _ _ _ (by exact h)
      simp only [List.length_drop, List.length_cons] at hx ⊢
      omega
  · rename_i b0 rest h1 h2 h3 h4 h5 h6 h7 r0 rs0 hdec hre
    rw [parseSentence.eq_def] at h
    simp only [dif_neg h1, dif_neg h2, if_neg h3, if_neg h4, if_neg h5, if_neg h6,
      if_neg h7, hdec, dif_pos hre] at h
    exact absurd h (by simp)
  · rename_i b0 rest h1 h2 h3 h4 h5 h6 h7 r0 rs0 hdec hre ih
    rw [parseSentence.eq_def] at h
    simp only [dif_neg h1, dif_neg h2, if_neg h3, if_neg h4, if_neg h5, if_neg h6,
      if_neg h7, hdec, dif_neg hre] at h
    have hx := ih _ _ _ h
    simp only [List.length_drop, List.length_cons] at hx ⊢
    omega

/-- The outer loop of `CreateMigrationStepsFromSqlContent` (migration.go lines
46-261): skip ignorable lines, treat a `#` at the very start of a line as a
block header (trimmed and truncated to 255 bytes), reject statement text
outside a block, and otherwise run the statement loop. -/
def parseLoop (s : GoStr) (name : GoStr) (seqNo : Nat)
    (steps : List MigrationStep) : Except String (List MigrationStep) :=
  match s with
  | [] => .ok steps
  | b :: rest =>
    if h1 : 0 < shouldIgnoreLine (b :: rest) then
      parseLoop ((b :: rest).drop (shouldIgnoreLine (b :: rest))) name seqNo steps
    else if b = 35 then
      if (truncStrBytes (trimCutset ((b :: rest).take (findEol (b :: rest)))) 255).length = 0 then
        .error "empty start of block comment"
      else
        parseLoop ((b :: rest).drop (findEol (b :: rest)))
          (truncStrBytes (trimCutset ((b :: rest).take (findEol (b :: rest)))) 255) 1 steps
    else if name.length = 0 then .error "SQL sentence found outside a block"
    else
      match hps : parseSentence (b :: rest) [] false name seqNo steps with
      | .error e => .error e
      | .ok (rem, steps2, seqNo2) => parseLoop rem name seqNo2 steps2
termination_by s.length
decreasing_by
  · simp only [List.length_drop, List.length_cons]
    omega
  · rename_i heq hb
    have : 0 < findEol (b0 :: rest) := by
      rw [findEol.eq_def]
      subst heq
      simp
    simp only [List.length_drop, List.length_cons]
    omega
  · have := parseSentence_rem _ _ _ _ _ _ _ _ _ hps
    simp only [List.length_cons] at this ⊢
    omega

/-- `CreateMigrationStepsFromSqlContent` from `migration.go`: split a
migration script into named, numbered steps. -/
def CreateMigrationStepsFromSqlContent (content : GoStr) :
    Except String (List MigrationStep) :=
  parseLoop content [] 1 []

/-- Right rotation of a 32-bit word (FIPS 180-4 `ROTR`). -/
def rotr32 (n x : Nat) : Nat := (x / 2 ^ n + x % 2 ^ n * 2 ^ (32 - n)) % 2 ^ 32

/-- The SHA-256 round constants. -/
def sha256K : List Nat :=
  [1116352408, 1899447441, 3049323471, 3921009573, 961987163,
   1508970993, 2453635748, 2870763221, 3624381080, 310598401,
   607225278, 1426881987, 1925078388, 2162078206, 2614888103,
   3248222580, 3835390401, 4022224774, 264347078, 604807628,
   770255983, 1249150122, 1555081692, 1996064986, 2554220882,
   2821834349, 2952996808, 3210313671, 3336571891, 3584528711,
   113926993, 338241895, 666307205, 773529912, 1294757372,
   1396182291, 1695183700, 1986661051, 2177026350, 2456956037,
   2730485921, 2820302411, 3259730800, 3345764771, 3516065817,
   3600352804, 4094571909, 275423344, 430227734, 506948616,
   659060556, 883997877, 958139571, 1322822218, 1537002063,
   1747873779, 1955562222, 2024104815, 2227730452, 2361852424,
   2428436474, 2756734187, 3204031479, 3329325298]

/-- The SHA-256 initial hash value. -/
def sha256H0 : List Nat :=
  [1779033703, 3144134277, 1013904242, 2773480762,
   1359893119, 2600822924, 528734635, 1541459225]

/-- SHA-256 padding: append `0x80`, zero bytes, and the 64-bit big-endian bit
length, reaching a multiple of 64 bytes. -/
def sha256Pad (msg : GoStr) : GoStr :=
  let l := msg.length
  let k := (64 + 56 - (l + 1) % 64) % 64
  msg ++ [0x80] ++ List.replicate k 0 ++
    (List.range 8).map (fun i => 8 * l / 2 ^ (8 * (7 - i)) % 256)

/-- The SHA-256 message schedule of one 64-byte chunk. -/
def sha256Schedule (chunk : GoStr) : List Nat :=
  let w16 := (List.range 16).map (fun i =>
    chunk.getD (4 * i) 0 * 0x1000000 + chunk.getD (4 * i + 1) 0 * 0x10000 +
      chunk.getD (4 * i + 2) 0 * 0x100 + chunk.getD (4 * i + 3) 0)
  (List.range 48).foldl (fun w _ =>
    let t := w.length
    let s0 := rotr32 7 (w.getD (t - 15) 0) ^^^ rotr32 18 (w.getD (t - 15) 0) ^^^
      w.getD (t - 15) 0 / 2 ^ 3
    let s1 := rotr32 17 (w.getD (t - 2) 0) ^^^ rotr32 19 (w.getD (t - 2) 0) ^^^
      w.getD (t - 2) 0 / 2 ^ 10
    w ++ [(w.getD (t - 16) 0 + s0 + w.getD (t - 7) 0 + s1) % 2 ^ 32]) w16

/-- One SHA-256 compression round. -/
def sha256Round (st : Nat × Nat × Nat × Nat × Nat × Nat × Nat × Nat) (kw : Nat × Nat) :
    Nat × Nat × Nat × Nat × Nat × Nat × Nat × Nat :=
  match st, kw with
  | (a, b, c, d, e, f, g, h), (k, w) =>
    let s1 := rotr32 6 e ^^^ rotr32 11 e ^^^ rotr32 25 e
    let ch := e &&& f ^^^ ((2 ^ 32 - 1 - e) &&& g)
    let t1 := (h + s1 + ch + k + w) % 2 ^ 32
    let s0 := rotr32 2 a ^^^ rotr32 13 a ^^^ rotr32 22 a
    let mj := a &&& b ^^^ (a &&& c) ^^^ (b &&& c)
    let t2 := (s0 + mj) % 2 ^ 32
    ((t1 + t2) % 2 ^ 32, a, b, c, (d + t1) % 2 ^ 32, e, f, g)

/-- SHA-256 compression of one chunk into the running hash value. -/
def sha256Chunk (hs : List Nat) (chunk : GoStr) : List Nat :=
  let w := sha256Schedule chunk
  let init := (hs.getD 0 0, hs.getD 1 0, hs.getD 2 0, hs.getD 3 0,
    hs.getD 4 0, hs.getD 5 0, hs.getD 6 0, hs.getD 7 0)
  let fin := (sha256K.zip w).foldl sha256Round init
  match fin with
  | (a, b, c, d, e, f, g, h) =>
    [(hs.getD 0 0 + a) % 2 ^ 32, (hs.getD 1 0 + b) % 2 ^ 32,
     (hs.getD 2 0 + c) % 2 ^ 32, (hs.getD 3 0 + d) % 2 ^ 32,
     (hs.getD 4 0 + e) % 2 ^ 32, (hs.getD 5 0 + f) % 2 ^ 32,
     (hs.getD 6 0 + g) % 2 ^ 32, (hs.getD 7 0 + h) % 2 ^ 32]

/-- Split a padded message into 64-byte chunks. -/
def sha256Chunks (padded : GoStr) : List GoStr :=
  (List.range (padded.length / 64)).map (fun i => (padded.drop (64 * i)).take 64)

/-- Go `sha256.Sum` over a byte string: the 32-byte SHA-256 digest (used by
`New` to hash the configured database name). -/
def sha256Sum (msg : GoStr) : GoStr :=
  let hs := (sha256Chunks (sha256Pad msg)).foldl sha256Chunk sha256H0
  hs.flatMap (fun v => [v / 0x1000000 % 256, v / 0x10000 % 256, v / 0x100 % 256, v % 256])

/-- `Options` from the driver constructor: connection options.  The
`ExtendedSettings` map only feeds the DSN string and is omitted. -/
structure Options where
  Host : GoStr
  Port : Nat
  User : GoStr
  Password : GoStr
  Name : GoStr
  MaxConns : Int
  SSLMode : Int
  deriving Repr, DecidableEq

/-- `SSLModeAllow` (iota 0). -/
def SSLModeAllow : Int := 0

/-- `SSLModeRequired` (iota 1). -/
def SSLModeRequired : Int := 1

/-- `SSLModeDisable` (iota 2). -/
def SSLModeDisable : Int := 2

/-- The `Database` accessor.  Of its fields only `nameHash` (the SHA-256 of
the configured database name, set once in `New`) enters the migration logic;
the pgx pool and the error-handler cell are runtime I/O state with no bearing
on the claims and are not modelled. -/
structure Database where
  nameHash : GoStr
  deriving Repr, DecidableEq

/-- `New`: validate the options and build the accessor, hashing the database
name.  The DSN construction, `pgxpool.ParseConfig` and pool creation are I/O
and are not modelled; every validation branch of the source is. -/
def New (opts : Options) : Except String Database :=
  if opts.Host.length = 0 then .error "invalid host"
  else if opts.User.length = 0 then .error "invalid user name"
  else if opts.Name.length = 0 then .error "invalid database name"
  else if ¬(opts.SSLMode = SSLModeDisable ∨ opts.SSLMode = SSLModeAllow ∨
      opts.SSLMode = SSLModeRequired) then .error "invalid SSL mode"
  else .ok { nameHash := sha256Sum opts.Name }

/-- `quoteIdentifier` from `helpers.go`: double every `"` and wrap in `"`.
`strings.ReplaceAll` replaces the ASCII quote byte, which in UTF-8 never
occurs inside a multi-byte character, so byte-level replacement is exact. -/
def quoteIdentifier (s : GoStr) : GoStr :=
  34 :: s.flatMap (fun b => if b = 34 then [34, 34] else [b]) ++ [34]

/-- The FNV-64a offset basis (`hash/fnv`). -/
def fnv64Offset : Nat := 14695981039346656037

/-- One byte of FNV-64a: xor then multiply by the prime, modulo `2 ^ 64`. -/
def fnv64Byte (h b : Nat) : Nat := (h ^^^ b) * 1099511628211 % 2 ^ 64

/-- `hash.Write` for FNV-64a: absorb a byte string into the running state. -/
def fnv64Write (h : Nat) (bs : GoStr) : Nat := bs.foldl fnv64Byte h

/-- `getMigrationLockId` from `migration.go`: FNV-64a over the stored name
hash then the ledger table name, masked with `math.MaxInt64`.  The Go result
is an `int64` in `[0, 2^63)`; it is modelled as the corresponding `Nat`. -/
def getMigrationLockId (db : Database) (tableName : GoStr) : Nat :=
  fnv64Write (fnv64Write fnv64Offset db.nameHash) tableName &&& (2 ^ 63 - 1)

/-- A raw error produced by the underlying store/driver before the accessor
layer classifies it: `pgx.ErrNoRows`, a `*pgconn.PgError` (by SQLSTATE code),
a `net`-package error, or a context-cancellation error. -/
inductive RawErr where
  | pgxNoRows
  | pgError (code : String)
  | netError (msg : String)
  | canceled
  deriving Repr, DecidableEq

/-- An error as seen by callers of the accessor layer: either a raw error
passed through unchanged, the shared `errNoRows` (`*NoRowsError`) value, or a
`*Error` wrapper with its message and the wrapped raw error. -/
inductive MigErr where
  | raw (e : RawErr)
  | oursNoRows
  | ours (message : String) (inner : RawErr)
  deriving Repr, DecidableEq

/-- `newError` from `helpers.go`: an existing `*Error` is returned as is;
`pgx.ErrNoRows` becomes the shared `errNoRows`; network and postgres errors
are wrapped into `*Error` with the given message; anything else (such as a
context-cancellation error, or `errNoRows` itself) is returned unchanged. -/
def newErrorM : MigErr → String → MigErr
  | .ours m i, _ => .ours m i
  | .oursNoRows, _ => .oursNoRows
  | .raw .pgxNoRows, _ => .oursNoRows
  | .raw (.pgError c), msg => .ours msg (.pgError c)
  | .raw (.netError m), msg => .ours msg (.netError m)
  | .raw .canceled, _ => .raw .canceled

/-- `IsNoRowsError` from `errors.go`: `errors.As` for `*NoRowsError`.  A
`*Error` wrapper unwraps to a raw postgres/network error, never to
`*NoRowsError`, so only the shared `errNoRows` value satisfies it. -/
def IsNoRowsError : MigErr → Bool
  | .oursNoRows => true
  | .ours _ _ => false
  | .raw _ => false

/-- Whether `errors.Is(err, pgx.ErrNoRows)` holds: the raw value itself or a
wrapper whose chain contains it. -/
def errIsPgxNoRows : MigErr → Bool
  | .raw .pgxNoRows => true
  | .ours _ .pgxNoRows => true
  | _ => false

/-- `processError` from `internal.go`: map `pgx.ErrNoRows` to the shared
`errNoRows`, then return the error.  Its error-handler bookkeeping mutates the
accessor's observer cell only and is not modelled. -/
def processErrorM : Option MigErr → Option MigErr
  | none => none
  | some e => if errIsPgxNoRows e then some .oursNoRows else some e

/-- Modelled from the spec: `Database.handleError` is called by the
connection/transaction wrappers but its definition is not under `src/` (only
call sites are).  Per the spec, store failures are "propagated verbatim to the
caller" and the error-handler singleton only notifies an observer, so it
returns its argument unchanged. -/
def handleError (e : Option MigErr) : Option MigErr := e

/-- A committed row of the migration ledger table.  The `executedAt` column is
filled by the server's `NOW()` and is not modelled. -/
structure LedgerRow where
  id : Int
  name : GoStr
  sequence : Nat
  deriving Repr, DecidableEq

/-- The visible state of the target database: the committed ledger rows plus
an opaque stand-in for all non-ledger schema state that migration SQL can
touch. -/
structure DbState where
  ledger : List LedgerRow
  world : Nat
  deriving Repr, DecidableEq

/-- Operations the executor issues on its single borrowed connection, in
order.  All events of one run happen on that one session. -/
inductive MigEvent where
  | acquireLock (key : Nat)
  | releaseLock (key : Nat)
  | createTable (table : GoStr)
  | queryLastId (table : GoStr)
  | cbCall (idx : Int)
  | txBegin
  | txStepSql (sql : GoStr)
  | txInsert (id : Int) (name : GoStr) (seq : Nat)
  | txCommit
  | txRollback
  deriving Repr, DecidableEq

/-- The environment driving one `RunMigrations` call: the outcome of each
store operation (keyed, for per-step operations, by the step index at which
they are issued), the effect of each step's SQL on the database state, and the
caller's step provider.  `unlockRes` is the (discarded) result of the unlock
statement. -/
structure MigEnv where
  connAcquireRes : Option RawErr
  lockRes : Option RawErr
  createRes : Option RawErr
  scanRes : Except RawErr Int
  cb : Int → Except MigErr MigrationStep
  beginRes : Int → Option RawErr
  sqlRes : Int → Option RawErr
  sqlEffect : Int → DbState → DbState
  insertRes : Int → Option RawErr
  commitRes : Int → Option RawErr
  unlockRes : Option RawErr

/-- `Conn.WithinTx`: begin a transaction, run the callback on it, commit on
success; on a callback or commit failure the transaction is rolled back, so
the pre-transaction state is kept.  Error wrapping follows the source
(`"unable to start transaction"`, `"callback returned failure"`, `"unable to
commit db transaction"`), with `handleError` applied to the result. -/
def connWithinTx (beginRes commitRes : Option RawErr) (st : DbState)
    (cb : DbState → DbState × Option MigErr × List MigEvent) :
    Option MigErr × DbState × List MigEvent :=
  match beginRes with
  | some e =>
    (handleError (some (newErrorM (.raw e) "unable to start transaction")), st, [])
  | none =>
    match cb st with
    | (txSt, none, txTr) =>
      match commitRes with
      | none => (handleError none, txSt, .txBegin :: txTr ++ [.txCommit])
      | some ce =>
        (handleError (some (newErrorM (.raw ce) "unable to commit db transaction")),
          st, .txBegin :: txTr ++ [.txCommit, .txRollback])
    | (txSt, some e, txTr) =>
      (handleError (some (newErrorM e "callback returned failure")), st,
        .txBegin :: txTr ++ [.txRollback])

/-- The transaction callback of `RunMigrations` (migration.go lines 326-337):
execute the step's SQL, then insert the ledger row `(stepIdx, name, sequence)`.
Each `Tx.Exec` failure is wrapped as in the source (`"unable to execute
command"`) and passed through `handleError`. -/
def migStepTx (env : MigEnv) (stepIdx : Int) (stepInfo : MigrationStep)
    (txSt : DbState) : DbState × Option MigErr × List MigEvent :=
  match env.sqlRes stepIdx with
  | some e =>
    (txSt, handleError (some (newErrorM (.raw e) "unable to execute command")),
      [.txStepSql stepInfo.sql])
  | none =>
    let st1 := env.sqlEffect stepIdx txSt
    match env.insertRes stepIdx with
    | some e =>
      (st1, handleError (some (newErrorM (.raw e) "unable to execute command")),
        [.txStepSql stepInfo.sql, .txInsert stepIdx stepInfo.name stepInfo.sequenceNo])
    | none =>
      ({ st1 with ledger := st1.ledger ++ [⟨stepIdx, stepInfo.name, stepInfo.sequenceNo⟩] },
        none,
        [.txStepSql stepInfo.sql, .txInsert stepIdx stepInfo.name stepInfo.sequenceNo])

/-- Go `int32` wrap-around: the value of an `int32` whose unbounded value is
`x`.  `RunMigrations` declares `var stepIdx int32` (migration.go line 278), so
its increments at lines 304 and 343 wrap at `2 ^ 31`. -/
def wrap32 (x : Int) : Int := (x + 2 ^ 31) % 2 ^ 32 - 2 ^ 31

/-- The step index reached after `k` `int32` increments of `stepIdx` starting
from `i`: the indices the step loop visits. -/
def wrapAdd (i : Int) : Nat → Int
  | 0 => i
  | k + 1 => wrapAdd (wrap32 (i + 1)) k

/-- The step loop of `RunMigrations` (migration.go lines 313-344): pull steps
from the provider at successive indices; an empty name ends the run; each step
runs inside one `Conn.WithinTx` transaction; the first failure aborts.  `fuel`
bounds the number of provider calls; `none` means the bound was exhausted
(the Go loop has no such bound). -/
def runSteps (env : MigEnv) : Nat → Int → DbState → List MigEvent →
    Option (Option MigErr × DbState × List MigEvent)
  | 0, _, _, _ => none
  | fuel + 1, stepIdx, st, tr =>
    match env.cb stepIdx with
    | .error e => some (some e, st, tr ++ [.cbCall stepIdx])
    | .ok stepInfo =>
      if stepInfo.name.length = 0 then some (none, st, tr ++ [.cbCall stepIdx])
      else
        match connWithinTx (env.beginRes stepIdx) (env.commitRes stepIdx) st
            (migStepTx env stepIdx stepInfo) with
        | (some e, st2, txTr) => some (some e, st2, tr ++ [.cbCall stepIdx] ++ txTr)
        | (none, st2, txTr) =>
          runSteps env fuel (wrap32 (stepIdx + 1)) st2 (tr ++ [.cbCall stepIdx] ++ txTr)

/-- The body of `RunMigrations` inside `WithinConn` (migration.go lines
277-348): compute the lock key from the raw table name, quote the table name,
acquire the advisory lock, and — with the release registered by `defer` for
every later exit — create the ledger table, resolve the resume index from the
ledger's maximum id (an empty ledger is not an error and resumes at 1), and
run the step loop. -/
def runMigrationsConn (env : MigEnv) (db : Database) (tableName : GoStr)
    (fuel : Nat) (st : DbState) :
    Option (Option MigErr × DbState × List MigEvent) :=
  let lockId := getMigrationLockId db tableName
  let qtbl := quoteIdentifier tableName
  match env.lockRes with
  | some e =>
    some (handleError (some (newErrorM (.raw e) "")), st, [.acquireLock lockId])
  | none =>
    let inner : Option (Option MigErr × DbState × List MigEvent) :=
      match env.createRes with
      | some e => some (handleError (some (newErrorM (.raw e) "")), st, [.createTable qtbl])
      | none =>
        match env.scanRes with
        | .ok lastId =>
          runSteps env fuel (wrap32 (lastId + 1)) st [.createTable qtbl, .queryLastId qtbl]
        | .error e =>
          match handleError (some (newErrorM (.raw e) "unable to scan row")) with
          | some se =>
            if IsNoRowsError se then
              runSteps env fuel 1 st [.createTable qtbl, .queryLastId qtbl]
            else some (some se, st, [.createTable qtbl, .queryLastId qtbl])
          | none => runSteps env fuel 1 st [.createTable qtbl, .queryLastId qtbl]
    match inner with
    | none => none
    | some (err, st2, tr2) =>
      some (err, st2, .acquireLock lockId :: tr2 ++ [.releaseLock lockId])

/-- `Database.RunMigrations`: borrow one connection (`WithinConn`) and run the
migration protocol on it, applying `processError` to the final error as the
source's `WithinConn` does. -/
def RunMigrations (env : MigEnv) (db : Database) (tableName : GoStr)
    (fuel : Nat) (st : DbState) :
    Option (Option MigErr × DbState × List MigEvent) :=
  match env.connAcquireRes with
  | some e => some (processErrorM (some (.raw e)), st, [])
  | none =>
    match runMigrationsConn env db tableName fuel st with
    | none => none
    | some (err, st2, tr) => some (processErrorM err, st2, tr)

/-- The maximum `id` present in a ledger (0 when empty): the value the
resume-point query `SELECT id ... ORDER BY id DESC LIMIT 1` reads. -/
def ledgerMaxId (rows : List LedgerRow) : Int :=
  rows.foldl (fun m r => max m r.id) 0

/-- A concrete migration step used by the concrete runs below. -/
def stepV1 : MigrationStep := ⟨strBytes "v1", 1, strBytes "CREATE TABLE t1 (id int);"⟩

/-- A second concrete migration step. -/
def stepV2 : MigrationStep := ⟨strBytes "v2", 1, strBytes "CREATE INDEX i1 ON t1 (id);"⟩

/-- A fully successful environment: empty ledger, two steps then done. -/
def envOk : MigEnv where
  connAcquireRes := none
  lockRes := none
  createRes := none
  scanRes := .error .pgxNoRows
  cb := fun i => if i = 1 then .ok stepV1 else if i = 2 then .ok stepV2 else .ok ⟨[], 0, []⟩
  beginRes := fun _ => none
  sqlRes := fun _ => none
  sqlEffect := fun _ s => s
  insertRes := fun _ => none
  commitRes := fun _ => none
  unlockRes := none

/-- `envOk` but every step's SQL is cancelled by the caller's context. -/
def envSqlCancel : MigEnv := { envOk with sqlRes := fun _ => some .canceled }

/-- `envOk` but the second step's SQL fails with a postgres error. -/
def envStep2Fails : MigEnv :=
  { envOk with sqlRes := fun i => if i = 2 then some (.pgError "42P01") else none }

/-- `envOk` but resolving the last ledger id fails with a non-empty-result
postgres error. -/
def envScanPgErr : MigEnv := { envOk with scanRes := .error (.pgError "57014") }

/-- `envOk` but the ledger already holds ids up to 41. -/
def envScanOk41 : MigEnv := { envOk with scanRes := .ok 41 }

/-- `envOk` but the ledger already holds the maximum `int32` id, and the
provider ends the run at whatever index it is offered. -/
def envScanMax : MigEnv :=
  { envOk with scanRes := .ok 2147483647, cb := fun _ => .ok ⟨[], 0, []⟩ }

/-- A database accessor with an all-zero name hash. -/
def dbZero : Database := ⟨List.replicate 32 0⟩

/-- The empty initial database state. -/
def stEmpty : DbState := ⟨[], 0⟩

/-- A concrete ledger table name. -/
def tblM : GoStr := strBytes "migrations"

/-- Connection options used by the C10 witness: first variant. -/
def optsA : Options :=
  { Host := strBytes "h1", Port := 5432, User := strBytes "u1",
    Password := strBytes "p1", Name := strBytes "mydb", MaxConns := 1, SSLMode := 2 }

/-- Connection options used by the C10 witness: same database name, every
other field different. -/
def optsB : Options :=
  { Host := strBytes "h2", Port := 1234, User := strBytes "u2",
    Password := strBytes "p2", Name := strBytes "mydb", MaxConns := 9, SSLMode := 0 }

/-- The accessor that `New` builds from `optsA` and `optsB`. -/
def dbMydb : Database := { nameHash := sha256Sum (strBytes "mydb") }

/-- The step the provider returns at an index (a placeholder when it errors):
used to phrase run outcomes. -/
def cbStepD (env : MigEnv) (i : Int) : MigrationStep :=
  match env.cb i with
  | .ok s => s
  | .error _ => ⟨[], 0, []⟩

/-- Whether the provider returns a real (non-terminating, non-error) step at
an index. -/
def cbOk (env : MigEnv) (i : Int) : Bool :=
  match env.cb i with
  | .ok s => decide (s.name.length ≠ 0)
  | .error _ => false

/-- The database state after `k` consecutive committed steps starting at
index `i`: each applies the step's SQL effect and appends its ledger row. -/
def committedAfter (env : MigEnv) (i : Int) (st : DbState) : Nat → DbState
  | 0 => st
  | k + 1 =>
    let st1 := env.sqlEffect i st
    committedAfter env (wrap32 (i + 1))
      { st1 with
        ledger := st1.ledger ++ [⟨i, (cbStepD env i).name, (cbStepD env i).sequenceNo⟩] }
      k

/-- The resume index the executor derives from the environment's answer to
the last-ledger-id query: the `int32` increment `wrap32 (lastId + 1)` on a
stored id, 1 on an empty result, none (abort) on any other error. -/
def resumeAt (env : MigEnv) : Option Int :=
  match env.scanRes with
  | .ok lastId => some (wrap32 (lastId + 1))
  | .error .pgxNoRows => some 1
  | .error _ => none

/-- A well-formed single-quoted string body: ASCII bytes other than the
quote, and doubled-quote escapes.  (Restriction to ASCII content keeps the
statement byte-level; the scanner itself handles arbitrary runes.) -/
def isSQBody : GoStr → Bool
  | [] => true
  | 39 :: 39 :: t => isSQBody t
  | b :: t => decide (b < 128) && decide (b ≠ 39) && isSQBody t

/-- Sequence-number check for the steps emitted by one statement run: they
are numbered `q, q + 1, …` consecutively. -/
def consecFrom (q : Nat) : List MigrationStep → Bool
  | [] => true
  | st :: t => decide (st.sequenceNo = q) && consecFrom (q + 1) t

/-- Sequence-number check for a whole parse output: a first run numbered
consecutively from `q`, with each block header restarting a run at 1. -/
def seqRunsFrom (q : Nat) : List MigrationStep → Bool
  | [] => true
  | st :: t =>
    (decide (st.sequenceNo = q) && seqRunsFrom (q + 1) t) ||
      (decide (st.sequenceNo = 1) && seqRunsFrom 2 t)

/-- Render a block's statements: each statement followed by `;` and a
newline. -/
def renderStmts (stmts : List GoStr) : GoStr :=
  (stmts.map (fun st => st ++ [59, 10])).flatten

/-- Render one block: a `#` header line with the block's raw name, then its
statements. -/
def renderBlock (nm : GoStr) (stmts : List GoStr) : GoStr :=
  35 :: nm ++ [10] ++ renderStmts stmts

/-- Render a whole migration script from named blocks of statements. -/
def renderScript (blocks : List (GoStr × List GoStr)) : GoStr :=
  (blocks.map (fun p => renderBlock p.1 p.2)).flatten

/-- A raw header name acceptable to the parser: no end-of-line bytes and a
non-empty trimmed/truncated result. -/
def goodName (nm : GoStr) : Bool :=
  nm.all (fun x => decide (x ≠ 10) && decide (x ≠ 13)) &&
    decide ((truncStrBytes (trimCutset nm) 255).length ≠ 0)

/-- A statement body acceptable for the rendered-script theorem: non-empty
and made of plain bytes only. -/
def goodStmt (st : GoStr) : Bool :=
  decide (st ≠ []) && st.all plainByte

/-- The steps one block contributes, numbered from `q`. -/
def blockSteps (nm : GoStr) (q : Nat) : List GoStr → List MigrationStep
  | [] => []
  | st :: t => ⟨truncStrBytes (trimCutset nm) 255, q, st ++ [59]⟩ :: blockSteps nm (q + 1) t

/-- The full expected output of parsing a rendered script. -/
def expectedSteps : List (GoStr × List GoStr) → List MigrationStep
  | [] => []
  | (nm, stmts) :: rest => blockSteps nm 1 stmts ++ expectedSteps rest

/-- Unfolding of the outer loop at end of input. -/
theorem pl_nil (name : GoStr) (q : Nat) (steps : List MigrationStep) :
    parseLoop [] name q steps = .ok steps := by
  rw [parseLoop.eq_def]

/-- Unfolding of the outer loop on an ignorable line. -/
theorem pl_ignore (b : Nat) (rest name : GoStr) (q : Nat) (steps : List MigrationStep)
    (h1 : 0 < shouldIgnoreLine (b :: rest)) :
    parseLoop (b :: rest) name q steps =
      parseLoop ((b :: rest).drop (shouldIgnoreLine (b :: rest))) name q steps := by
  rw [parseLoop.eq_def]
  simp only [dif_pos h1]

/-- Unfolding of the outer loop at a `#` in the first column: a block header. -/
theorem pl_header (rest name : GoStr) (q : Nat) (steps : List MigrationStep)
    (h1 : ¬0 < shouldIgnoreLine (35 :: rest)) :
    parseLoop (35 :: rest) name q steps =
      if (truncStrBytes (trimCutset ((35 :: rest).take (findEol (35 :: rest)))) 255).length = 0 then
        .error "empty start of block comment"
      else
        parseLoop ((35 :: rest).drop (findEol (35 :: rest)))
          (truncStrBytes (trimCutset ((35 :: rest).take (findEol (35 :: rest)))) 255) 1 steps := by
  rw [parseLoop.eq_def]
  simp only [dif_neg h1, if_pos rfl]
  simp

/-- Unfolding of the outer loop at statement text while no block is open. -/
theorem pl_outside (b : Nat) (rest : GoStr) (q : Nat) (steps : List MigrationStep)
    (h1 : ¬0 < shouldIgnoreLine (b :: rest)) (hb : ¬b = 35) :
    parseLoop (b :: rest) [] q steps = .error "SQL sentence found outside a block" := by
  rw [parseLoop.eq_def]
  simp only [dif_neg h1, if_neg hb]
  simp

/-- Unfolding of the outer loop at statement text inside an open block: the
statement loop runs and the outer loop resumes on its remainder. -/
theorem pl_sentence (b : Nat) (rest name : GoStr) (q : Nat) (steps : List MigrationStep)
    (h1 : ¬0 < shouldIgnoreLine (b :: rest)) (hb : ¬b = 35) (hn : ¬name.length = 0) :
    parseLoop (b :: rest) name q steps =
      match parseSentence (b :: rest) [] false name q steps with
      | .error e => .error e
      | .ok (rem, steps2, seqNo2) => parseLoop rem name seqNo2 steps2 := by
  rw [parseLoop.eq_def]
  simp only [dif_neg h1, if_neg hb, if_neg hn]
  rcases hx : parseSentence (b :: rest) [] false name q steps with e | ⟨rem, steps2, seqNo2⟩ <;>
    simp [hx]

/-- The step loop only appends to the event trace it is given. -/
theorem runSteps_trace_append (env : MigEnv) :
    ∀ (fuel : Nat) (i : Int) (st : DbState) (tr : List MigEvent)
      (err : Option MigErr) (st2 : DbState) (tr2 : List MigEvent),
      runSteps env fuel i st tr = some (err, st2, tr2) → ∃ suf, tr2 = tr ++ suf := by
  intro fuel
  induction fuel with
  | zero => intro i st tr err st2 tr2 h; simp [runSteps] at h
  | succ f ih =>
    intro i st tr err st2 tr2 h
    rw [runSteps] at h
    rcases hcb : env.cb i with e | stepInfo <;> simp only [hcb] at h
    · exact ⟨[.cbCall i], by simp_all⟩
    · split at h
      · exact ⟨[.cbCall i], by simp_all⟩
      · rcases htx : connWithinTx (env.beginRes i) (env.commitRes i) st
            (migStepTx env i stepInfo) with ⟨oe, st3, tr3⟩
        rcases oe with _ | e3 <;> simp only [htx] at h
        · obtain ⟨suf, hsuf⟩ := ih _ _ _ _ _ _ h
          exact ⟨[.cbCall i] ++ tr3 ++ suf, by simp [hsuf]⟩
        · exact ⟨[.cbCall i] ++ tr3, by simp_all⟩

/-- When the step loop terminates it has called the provider at its starting
index. -/
theorem runSteps_first_cb (env : MigEnv) (fuel : Nat) (i : Int) (st : DbState)
    (tr : List MigEvent) (err : Option MigErr) (st2 : DbState) (tr2 : List MigEvent)
    (hf : 0 < fuel) (h : runSteps env fuel i st tr = some (err, st2, tr2)) :
    MigEvent.cbCall i ∈ tr2 := by
  cases fuel with
  | zero => omega
  | succ f =>
    rw [runSteps] at h
    rcases hcb : env.cb i with e | stepInfo <;> simp only [hcb] at h
    · simp only [Option.some.injEq, Prod.mk.injEq] at h
      obtain ⟨-, -, rfl⟩ := h
      simp
    · split at h
      · simp only [Option.some.injEq, Prod.mk.injEq] at h
        obtain ⟨-, -, rfl⟩ := h
        simp
      · rcases htx : connWithinTx (env.beginRes i) (env.commitRes i) st
            (migStepTx env i stepInfo) with ⟨oe, st3, tr3⟩
        rcases oe with _ | e3 <;> simp only [htx] at h
        · obtain ⟨suf, hsuf⟩ := runSteps_trace_append env _ _ _ _ _ _ _ h
          subst hsuf
          simp
        · simp only [Option.some.injEq, Prod.mk.injEq] at h
          obtain ⟨-, -, rfl⟩ := h
          simp

/-- Once the advisory lock is acquired, the connection's event trace of any
terminating run is the acquisition, the protocol body, and the deferred
release, in that order. -/
theorem runMigrationsConn_shape (env : MigEnv) (db : Database) (t : GoStr)
    (fuel : Nat) (st : DbState) (err : Option MigErr) (st2 : DbState)
    (tr : List MigEvent) (h2 : env.lockRes = none)
    (h : runMigrationsConn env db t fuel st = some (err, st2, tr)) :
    ∃ trMid, tr = .acquireLock (getMigrationLockId db t) :: trMid ++
      [.releaseLock (getMigrationLockId db t)] := by
  rw [runMigrationsConn] at h
  simp only [h2] at h
  split at h
  · exact absurd h (by simp)
  · rename_i out heq
    simp only [Option.some.injEq, Prod.mk.injEq] at h
    obtain ⟨-, -, rfl⟩ := h
    exact ⟨_, rfl⟩

/-- A terminating `RunMigrations` call is its inner single-connection run with
`processError` applied to the final error. -/
theorem RunMigrations_inner (env : MigEnv) (db : Database) (t : GoStr)
    (fuel : Nat) (st : DbState) (err : Option MigErr) (st2 : DbState)
    (tr : List MigEvent) (h1 : env.connAcquireRes = none)
    (h : RunMigrations env db t fuel st = some (err, st2, tr)) :
    ∃ err0, runMigrationsConn env db t fuel st = some (err0, st2, tr) ∧
      err = processErrorM err0 := by
  rw [RunMigrations] at h
  simp only [h1] at h
  rcases hx : runMigrationsConn env db t fuel st with _ | ⟨e3, s3, t3⟩
  · rw [hx] at h
    have h2 : (none : Option (Option MigErr × DbState × List MigEvent)) =
      some (err, st2, tr) := h
    exact absurd h2 (by simp)
  · rw [hx] at h
    have h2 : some (processErrorM e3, s3, t3) = some (err, st2, tr) := h
    simp only [Option.some.injEq, Prod.mk.injEq] at h2
    obtain ⟨rfl, rfl, rfl⟩ := h2
    exact ⟨e3, rfl, rfl⟩

/-- C8: `getMigrationLockId` is a deterministic function of the target
identity hash and the ledger table name (equal inputs give equal keys), equals
the FNV-64a hash of the byte concatenation of the identity hash and the table
name masked into the non-negative signed 64-bit range, and its result is
always below `2 ^ 63` (non-negative as an `int64`). -/
theorem c8_lock_key_deterministic_nonnegative :
    (∀ (db1 db2 : Database) (t1 t2 : GoStr), db1.nameHash = db2.nameHash → t1 = t2 →
      getMigrationLockId db1 t1 = getMigrationLockId db2 t2) ∧
    (∀ (db : Database) (t : GoStr),
      getMigrationLockId db t =
        fnv64Write fnv64Offset (db.nameHash ++ t) &&& (2 ^ 63 - 1)) ∧
    (∀ (db : Database) (t : GoStr), getMigrationLockId db t < 2 ^ 63) := by
  refine ⟨?_, ?_, ?_⟩
  · intro db1 db2 t1 t2 h1 h2
    rw [getMigrationLockId, getMigrationLockId, h1, h2]
  · intro db t
    rw [getMigrationLockId, fnv64Write, fnv64Write, fnv64Write, List.foldl_append]
  · intro db t
    have h : getMigrationLockId db t ≤ 2 ^ 63 - 1 := Nat.and_le_right
    omega

/-- Witness for C8 at a concrete identity hash and table name. -/
theorem c8_witness :
    getMigrationLockId dbZero tblM = getMigrationLockId dbZero tblM ∧
      getMigrationLockId dbZero tblM < 2 ^ 63 :=
  ⟨c8_lock_key_deterministic_nonnegative.1 dbZero dbZero tblM tblM rfl rfl,
    c8_lock_key_deterministic_nonnegative.2.2 dbZero tblM⟩


/-- On the empty-ledger path the run's trace contains the creation of the
identifier-quoted ledger table. -/
theorem runMigrationsConn_create_mem (env : MigEnv) (db : Database) (t : GoStr)
    (fuel : Nat) (st : DbState) (err : Option MigErr) (st2 : DbState)
    (tr : List MigEvent) (h2 : env.lockRes = none) (hc : env.createRes = none)
    (hs : env.scanRes = .error .pgxNoRows)
    (h : runMigrationsConn env db t fuel st = some (err, st2, tr)) :
    MigEvent.createTable (quoteIdentifier t) ∈ tr := by
  rw [runMigrationsConn] at h
  simp only [h2, hc, hs, handleError, newErrorM, IsNoRowsError, if_true] at h
  rcases hr : runSteps env fuel 1 st
      [.createTable (quoteIdentifier t), .queryLastId (quoteIdentifier t)] with
    _ | ⟨e4, s4, t4⟩
  · rw [hr] at h
    have h3 : (none : Option (Option MigErr × DbState × List MigEvent)) =
      some (err, st2, tr) := h
    exact absurd h3 (by simp)
  · rw [hr] at h
    have h3 : some (e4, s4, .acquireLock (getMigrationLockId db t) :: t4 ++
        [.releaseLock (getMigrationLockId db t)]) = some (err, st2, tr) := h
    simp only [Option.some.injEq, Prod.mk.injEq] at h3
    obtain ⟨-, -, rfl⟩ := h3
    obtain ⟨suf, hsuf⟩ := runSteps_trace_append env _ _ _ _ _ _ _ hr
    subst hsuf
    simp

/-- C10: the per-target identity stored by `New` is the SHA-256 of the
configured database name alone, so two accessors built from options with equal
`Name` (whatever their `Host`, `Port`, `User`, or other fields) derive equal
lock keys for every ledger table name; and a run's advisory-lock key is
computed from the raw (unquoted) table name, while the ledger-table statements
use the identifier-quoted name. -/
theorem c10_identity_hash_of_name_only :
    (∀ (o1 o2 : Options) (d1 d2 : Database), New o1 = .ok d1 → New o2 = .ok d2 →
      o1.Name = o2.Name →
      d1.nameHash = sha256Sum o1.Name ∧ d1.nameHash = d2.nameHash ∧
        ∀ t, getMigrationLockId d1 t = getMigrationLockId d2 t) ∧
    (∀ (env : MigEnv) (db : Database) (t : GoStr) (fuel : Nat) (st : DbState)
        (err : Option MigErr) (st2 : DbState) (tr : List MigEvent),
      env.connAcquireRes = none → env.lockRes = none →
      RunMigrations env db t fuel st = some (err, st2, tr) →
      tr.head? = some (.acquireLock (getMigrationLockId db t)) ∧
        (env.createRes = none → env.scanRes = .error .pgxNoRows →
          MigEvent.createTable (quoteIdentifier t) ∈ tr)) := by
  constructor
  · intro o1 o2 d1 d2 h1 h2 hn
    rw [New] at h1 h2
    split_ifs at h1 h2
    all_goals simp only [Except.ok.injEq] at h1 h2
    subst h1
    subst h2
    refine ⟨rfl, by rw [hn], ?_⟩
    intro t
    rw [hn]
  · intro env db t fuel st err st2 tr h1 h2 hrun
    obtain ⟨err0, hconn, -⟩ := RunMigrations_inner env db t fuel st err st2 tr h1 hrun
    obtain ⟨trMid, htr⟩ := runMigrationsConn_shape env db t fuel st err0 st2 tr h2 hconn
    constructor
    · rw [htr]
      rfl
    · intro hc hs
      exact runMigrationsConn_create_mem env db t fuel st err0 st2 tr h2 hc hs hconn


/-- Witness for C10: two option records sharing only the database name. -/
theorem c10_witness :
    dbMydb.nameHash = sha256Sum optsA.Name ∧ dbMydb.nameHash = dbMydb.nameHash ∧
      ∀ t, getMigrationLockId dbMydb t = getMigrationLockId dbMydb t :=
  c10_identity_hash_of_name_only.1 optsA optsB dbMydb dbMydb rfl rfl rfl

/-- C4: once the advisory lock has been acquired, every terminating run —
success, any store/callback error, or caller cancellation (an environment
returning a cancellation error at any point) — issues the unlock on the same
single borrowed connection as its final operation: the trace starts with the
acquisition and ends with the release. -/
theorem c4_release_attempted_on_every_exit :
    ∀ (env : MigEnv) (db : Database) (t : GoStr) (fuel : Nat) (st : DbState)
      (err : Option MigErr) (st2 : DbState) (tr : List MigEvent),
      env.connAcquireRes = none → env.lockRes = none →
      RunMigrations env db t fuel st = some (err, st2, tr) →
      tr.head? = some (.acquireLock (getMigrationLockId db t)) ∧
      tr.getLast? = some (.releaseLock (getMigrationLockId db t)) := by
  intro env db t fuel st err st2 tr h1 h2 hrun
  obtain ⟨err0, hconn, -⟩ := RunMigrations_inner env db t fuel st err st2 tr h1 hrun
  obtain ⟨mid, htr⟩ := runMigrationsConn_shape env db t fuel st err0 st2 tr h2 hconn
  subst htr
  refine ⟨rfl, ?_⟩
  rw [show MigEvent.acquireLock (getMigrationLockId db t) :: mid ++
      [MigEvent.releaseLock (getMigrationLockId db t)] =
      (MigEvent.acquireLock (getMigrationLockId db t) :: mid) ++
      [MigEvent.releaseLock (getMigrationLockId db t)] by simp]
  exact List.getLast?_concat _

/-- Witness for C4: a run cancelled during the first step's SQL still ends
with the lock release. -/
theorem c4_witness :
    ([MigEvent.acquireLock (getMigrationLockId dbZero tblM),
        .createTable (quoteIdentifier tblM), .queryLastId (quoteIdentifier tblM),
        .cbCall 1, .txBegin, .txStepSql stepV1.sql, .txRollback,
        .releaseLock (getMigrationLockId dbZero tblM)].head? =
      some (MigEvent.acquireLock (getMigrationLockId dbZero tblM))) ∧
    ([MigEvent.acquireLock (getMigrationLockId dbZero tblM),
        .createTable (quoteIdentifier tblM), .queryLastId (quoteIdentifier tblM),
        .cbCall 1, .txBegin, .txStepSql stepV1.sql, .txRollback,
        .releaseLock (getMigrationLockId dbZero tblM)].getLast? =
      some (MigEvent.releaseLock (getMigrationLockId dbZero tblM))) :=
  c4_release_attempted_on_every_exit envSqlCancel dbZero tblM 3 stEmpty
    (some (.raw .canceled)) stEmpty
    [MigEvent.acquireLock (getMigrationLockId dbZero tblM),
      .createTable (quoteIdentifier tblM), .queryLastId (quoteIdentifier tblM),
      .cbCall 1, .txBegin, .txStepSql stepV1.sql, .txRollback,
      .releaseLock (getMigrationLockId dbZero tblM)]
    rfl rfl rfl

/-- Wrapping a raw non-empty-result error never yields the empty-result
error value. -/
theorem newErrorM_not_noRows (e : RawErr) (msg : String) (he : e ≠ .pgxNoRows) :
    IsNoRowsError (newErrorM (.raw e) msg) = false := by
  cases e <;> simp_all [newErrorM, IsNoRowsError]

/-- Wrapping a raw non-empty-result error never produces an error whose chain
contains `pgx.ErrNoRows`. -/
theorem newErrorM_not_pgxNoRows (e : RawErr) (msg : String) (he : e ≠ .pgxNoRows) :
    errIsPgxNoRows (newErrorM (.raw e) msg) = false := by
  cases e <;> simp_all [newErrorM, errIsPgxNoRows]

/-- C3 counterexample: with the ledger's maximum id at the largest `int32`
value, the `int32` step counter wraps and the provider is called at index
`-2147483648`, not at `max(id) + 1 = 2147483648` — refuting the claim that
the resume index is always `max(id) + 1`. -/
theorem c3_counterexample :
    RunMigrations envScanMax dbZero tblM 3 stEmpty =
      some (none, stEmpty,
        [.acquireLock (getMigrationLockId dbZero tblM),
          .createTable (quoteIdentifier tblM), .queryLastId (quoteIdentifier tblM),
          .cbCall (-2147483648), .releaseLock (getMigrationLockId dbZero tblM)]) ∧
    MigEvent.cbCall ((2147483647 : Int) + 1) ∉
      [MigEvent.acquireLock (getMigrationLockId dbZero tblM),
        .createTable (quoteIdentifier tblM), .queryLastId (quoteIdentifier tblM),
        .cbCall (-2147483648), .releaseLock (getMigrationLockId dbZero tblM)] :=
  ⟨rfl, by decide⟩

/-- C3 (amended): resolving the resume point reads the ledger's maximum id
into the `int32` step counter; an empty-result answer is not an error and the
run resumes at index 1, a stored maximum `lastId` makes it resume at the
`int32` increment `wrap32 (lastId + 1)` (the provider is called at that
index) — which equals `lastId + 1` for every `lastId` below the largest
`int32`, the wrap at `2147483647` being the only divergence — and any other
error of the resume query aborts the run with that (wrapped) error, before
any provider call and with the state untouched. -/
theorem c3_resume_point_resolution :
    ∀ (env : MigEnv) (db : Database) (t : GoStr) (fuel : Nat) (st : DbState),
      env.connAcquireRes = none → env.lockRes = none → env.createRes = none →
      ((env.scanRes = .error .pgxNoRows → 0 < fuel →
        ∀ (err : Option MigErr) (st2 : DbState) (tr : List MigEvent),
          RunMigrations env db t fuel st = some (err, st2, tr) →
          MigEvent.cbCall 1 ∈ tr) ∧
      (∀ lastId : Int, env.scanRes = .ok lastId → 0 < fuel →
        ∀ (err : Option MigErr) (st2 : DbState) (tr : List MigEvent),
          RunMigrations env db t fuel st = some (err, st2, tr) →
          MigEvent.cbCall (wrap32 (lastId + 1)) ∈ tr) ∧
      (∀ lastId : Int, -(2 ^ 31) ≤ lastId → lastId < 2 ^ 31 - 1 →
        wrap32 (lastId + 1) = lastId + 1) ∧
      (∀ e : RawErr, env.scanRes = .error e → e ≠ .pgxNoRows →
        RunMigrations env db t fuel st =
          some (some (newErrorM (.raw e) "unable to scan row"), st,
            [.acquireLock (getMigrationLockId db t), .createTable (quoteIdentifier t),
              .queryLastId (quoteIdentifier t),
              .releaseLock (getMigrationLockId db t)]))) := by
  intro env db t fuel st h1 h2 hc
  refine ⟨?_, ?_, ?_, ?_⟩
  · intro hs hf err st2 tr hrun
    obtain ⟨err0, hconn, -⟩ := RunMigrations_inner env db t fuel st err st2 tr h1 hrun
    rw [runMigrationsConn] at hconn
    simp only [h2, hc, hs, handleError, newErrorM, IsNoRowsError, if_true] at hconn
    rcases hr : runSteps env fuel 1 st
        [.createTable (quoteIdentifier t), .queryLastId (quoteIdentifier t)] with
      _ | ⟨e4, s4, t4⟩
    · rw [hr] at hconn
      have h3 : (none : Option (Option MigErr × DbState × List MigEvent)) =
        some (err0, st2, tr) := hconn
      exact absurd h3 (by simp)
    · rw [hr] at hconn
      have h3 : some (e4, s4, .acquireLock (getMigrationLockId db t) :: t4 ++
          [.releaseLock (getMigrationLockId db t)]) = some (err0, st2, tr) := hconn
      simp only [Option.some.injEq, Prod.mk.injEq] at h3
      obtain ⟨-, -, rfl⟩ := h3
      have hm := runSteps_first_cb env fuel 1 st _ e4 s4 t4 hf hr
      simp [hm]
  · intro lastId hs hf err st2 tr hrun
    obtain ⟨err0, hconn, -⟩ := RunMigrations_inner env db t fuel st err st2 tr h1 hrun
    rw [runMigrationsConn] at hconn
    simp only [h2, hc, hs] at hconn
    rcases hr : runSteps env fuel (wrap32 (lastId + 1)) st
        [.createTable (quoteIdentifier t), .queryLastId (quoteIdentifier t)] with
      _ | ⟨e4, s4, t4⟩
    · rw [hr] at hconn
      have h3 : (none : Option (Option MigErr × DbState × List MigEvent)) =
        some (err0, st2, tr) := hconn
      exact absurd h3 (by simp)
    · rw [hr] at hconn
      have h3 : some (e4, s4, .acquireLock (getMigrationLockId db t) :: t4 ++
          [.releaseLock (getMigrationLockId db t)]) = some (err0, st2, tr) := hconn
      simp only [Option.some.injEq, Prod.mk.injEq] at h3
      obtain ⟨-, -, rfl⟩ := h3
      have hm := runSteps_first_cb env fuel (wrap32 (lastId + 1)) st _ e4 s4 t4 hf hr
      simp [hm]
  · intro lastId hlo hhi
    simp only [wrap32]
    omega
  · intro e hs he
    rw [RunMigrations]
    simp only [h1]
    rw [runMigrationsConn]
    simp only [h2, hc, hs, handleError, newErrorM_not_noRows e _ he, if_false,
      Bool.false_eq_true, processErrorM]
    simp [newErrorM_not_pgxNoRows e _ he]

/-- Witness for the amended C3: an empty ledger resumes at index 1, a ledger
with maximum id 41 resumes at the wrapped increment, which below the `int32`
boundary is exactly 42, and a non-empty-result resume error aborts the run
with the wrapped error and no provider call. -/
theorem c3_witness :
    (MigEvent.cbCall 1 ∈
      [MigEvent.acquireLock (getMigrationLockId dbZero tblM),
        .createTable (quoteIdentifier tblM), .queryLastId (quoteIdentifier tblM),
        .cbCall 1, .txBegin, .txStepSql stepV1.sql, .txInsert 1 stepV1.name 1,
        .txCommit, .cbCall 2, .txBegin, .txStepSql stepV2.sql,
        .txInsert 2 stepV2.name 1, .txCommit, .cbCall 3,
        .releaseLock (getMigrationLockId dbZero tblM)]) ∧
    (MigEvent.cbCall (wrap32 ((41 : Int) + 1)) ∈
      [MigEvent.acquireLock (getMigrationLockId dbZero tblM),
        .createTable (quoteIdentifier tblM), .queryLastId (quoteIdentifier tblM),
        .cbCall 42, .releaseLock (getMigrationLockId dbZero tblM)]) ∧
    wrap32 ((41 : Int) + 1) = (41 : Int) + 1 ∧
    (RunMigrations envScanPgErr dbZero tblM 3 stEmpty =
      some (some (newErrorM (.raw (.pgError "57014")) "unable to scan row"), stEmpty,
        [.acquireLock (getMigrationLockId dbZero tblM),
          .createTable (quoteIdentifier tblM), .queryLastId (quoteIdentifier tblM),
          .releaseLock (getMigrationLockId dbZero tblM)])) :=
  ⟨(c3_resume_point_resolution envOk dbZero tblM 3 stEmpty rfl rfl rfl).1 rfl
      (by decide) none
      ⟨[⟨1, stepV1.name, stepV1.sequenceNo⟩, ⟨2, stepV2.name, stepV2.sequenceNo⟩], 0⟩
      [MigEvent.acquireLock (getMigrationLockId dbZero tblM),
        .createTable (quoteIdentifier tblM), .queryLastId (quoteIdentifier tblM),
        .cbCall 1, .txBegin, .txStepSql stepV1.sql, .txInsert 1 stepV1.name 1,
        .txCommit, .cbCall 2, .txBegin, .txStepSql stepV2.sql,
        .txInsert 2 stepV2.name 1, .txCommit, .cbCall 3,
        .releaseLock (getMigrationLockId dbZero tblM)] rfl,
    (c3_resume_point_resolution envScanOk41 dbZero tblM 3 stEmpty rfl rfl rfl).2.1 41 rfl
      (by decide) none stEmpty
      [MigEvent.acquireLock (getMigrationLockId dbZero tblM),
        .createTable (quoteIdentifier tblM), .queryLastId (quoteIdentifier tblM),
        .cbCall 42, .releaseLock (getMigrationLockId dbZero tblM)] rfl,
    (c3_resume_point_resolution envScanOk41 dbZero tblM 3 stEmpty rfl rfl rfl).2.2.1 41
      (by decide) (by decide),
    (c3_resume_point_resolution envScanPgErr dbZero tblM 3 stEmpty rfl rfl rfl).2.2.2
      (.pgError "57014") rfl (by decide)⟩

/-- If `k` consecutive steps from index `i` succeed and the `k`-th step's SQL
or ledger insert fails, the step loop stops with the wrapped failure, its
state is exactly the state after the `k` committed steps (the failing
transaction is rolled back whole), and every provider call it makes is at one
of the `int32` indices `wrapAdd i 0, …, wrapAdd i k` — none beyond the
failing one. -/
theorem runSteps_fail_at (env : MigEnv) (e : RawErr) :
    ∀ (k fuel : Nat) (i : Int) (st : DbState) (tr : List MigEvent),
      k < fuel →
      (∀ j : Nat, j < k → cbOk env (wrapAdd i j) = true ∧
        env.beginRes (wrapAdd i j) = none ∧ env.sqlRes (wrapAdd i j) = none ∧
        env.insertRes (wrapAdd i j) = none ∧ env.commitRes (wrapAdd i j) = none) →
      cbOk env (wrapAdd i k) = true → env.beginRes (wrapAdd i k) = none →
      (env.sqlRes (wrapAdd i k) = some e ∨
        (env.sqlRes (wrapAdd i k) = none ∧ env.insertRes (wrapAdd i k) = some e)) →
      ∃ suf, runSteps env fuel i st tr =
        some (some (newErrorM (newErrorM (.raw e) "unable to execute command")
            "callback returned failure"),
          committedAfter env i st k, tr ++ suf) ∧
        ∀ j : Int, MigEvent.cbCall j ∈ suf → ∃ m : Nat, m ≤ k ∧ j = wrapAdd i m := by
  intro k
  induction k with
  | zero =>
    intro fuel i st tr hf hsteps hcb hbeg hfail
    cases fuel with
    | zero => omega
    | succ f =>
      simp only [wrapAdd] at hcb hbeg hfail
      rw [runSteps]
      rcases hcbv : env.cb i with e2 | s
      · rw [cbOk, hcbv] at hcb
        simp at hcb
      · rw [cbOk, hcbv] at hcb
        simp only [decide_eq_true_eq] at hcb
        simp only [hcbv]
        rw [if_neg (by omega)]
        rcases hfail with hsql | ⟨hsql, hins⟩
        · simp only [connWithinTx, hbeg, migStepTx, hsql, handleError, committedAfter]
          refine ⟨[.cbCall i, .txBegin, .txStepSql s.sql, .txRollback], by simp, ?_⟩
          intro j hj
          simp only [List.mem_cons, List.not_mem_nil, or_false] at hj
          rcases hj with hj | hj | hj | hj
          · exact ⟨0, le_refl 0, by simp_all [wrapAdd]⟩
          all_goals simp_all
        · simp only [connWithinTx, hbeg, migStepTx, hsql, hins, handleError,
            committedAfter]
          refine ⟨[.cbCall i, .txBegin, .txStepSql s.sql,
            .txInsert i s.name s.sequenceNo, .txRollback], by simp, ?_⟩
          intro j hj
          simp only [List.mem_cons, List.not_mem_nil, or_false] at hj
          rcases hj with hj | hj | hj | hj | hj
          · exact ⟨0, le_refl 0, by simp_all [wrapAdd]⟩
          all_goals simp_all
  | succ k ih =>
    intro fuel i st tr hf hsteps hcb hbeg hfail
    cases fuel with
    | zero => omega
    | succ f =>
      obtain ⟨hcb0, hbeg0, hsql0, hins0, hcom0⟩ := hsteps 0 (by omega)
      simp only [wrapAdd] at hcb0 hbeg0 hsql0 hins0 hcom0
      rw [runSteps]
      rcases hcbv : env.cb i with e2 | s
      · rw [cbOk, hcbv] at hcb0
        simp at hcb0
      · rw [cbOk, hcbv] at hcb0
        simp only [decide_eq_true_eq] at hcb0
        simp only [hcbv]
        rw [if_neg (by omega)]
        simp only [connWithinTx, hbeg0, migStepTx, hsql0, hins0, hcom0, handleError]
        have hsteps2 : ∀ j : Nat, j < k → cbOk env (wrapAdd (wrap32 (i + 1)) j) = true ∧
            env.beginRes (wrapAdd (wrap32 (i + 1)) j) = none ∧
            env.sqlRes (wrapAdd (wrap32 (i + 1)) j) = none ∧
            env.insertRes (wrapAdd (wrap32 (i + 1)) j) = none ∧
            env.commitRes (wrapAdd (wrap32 (i + 1)) j) = none := by
          intro j hj
          exact hsteps (j + 1) (by omega)
        obtain ⟨suf, hrun, hbound⟩ := ih f (wrap32 (i + 1))
          { ledger := (env.sqlEffect i st).ledger ++ [⟨i, s.name, s.sequenceNo⟩],
            world := (env.sqlEffect i st).world }
          (tr ++ [.cbCall i] ++
            [.txBegin, .txStepSql s.sql, .txInsert i s.name s.sequenceNo, .txCommit])
          (by omega) hsteps2 (by exact hcb) (by exact hbeg) (by exact hfail)
        refine ⟨[.cbCall i] ++
          [.txBegin, .txStepSql s.sql, .txInsert i s.name s.sequenceNo, .txCommit] ++ suf,
          ?_, ?_⟩
        · have hgoal : runSteps env f (wrap32 (i + 1))
              { ledger := (env.sqlEffect i st).ledger ++ [⟨i, s.name, s.sequenceNo⟩],
                world := (env.sqlEffect i st).world }
              (tr ++ [.cbCall i] ++
                [.txBegin, .txStepSql s.sql, .txInsert i s.name s.sequenceNo,
                  .txCommit]) =
              some (some (newErrorM (newErrorM (.raw e) "unable to execute command")
                  "callback returned failure"),
                committedAfter env i st (k + 1),
                tr ++ ([.cbCall i] ++
                  [.txBegin, .txStepSql s.sql, .txInsert i s.name s.sequenceNo,
                    .txCommit] ++ suf)) := by
            rw [hrun]
            have hcommitted : committedAfter env i st (k + 1) =
                committedAfter env (wrap32 (i + 1))
                  { ledger := (env.sqlEffect i st).ledger ++ [⟨i, s.name, s.sequenceNo⟩],
                    world := (env.sqlEffect i st).world }
                  k := by
              rw [committedAfter]
              simp only [cbStepD, hcbv]
            rw [hcommitted]
            simp
          exact hgoal
        · intro j hj
          simp only [List.mem_append, List.mem_cons, List.not_mem_nil, or_false] at hj
          rcases hj with (hj | hj | hj | hj | hj) | hj
          · exact ⟨0, by omega, by simp_all [wrapAdd]⟩
          · simp at hj
          · simp at hj
          · simp at hj
          · simp at hj
          · obtain ⟨m, hm, hjm⟩ := hbound j hj
            exact ⟨m + 1, by omega, by exact hjm⟩

/-- When step SQL never touches the ledger table, the state after `k`
committed steps from index `i` appends exactly one ledger row per step, with
the `int32` ids `wrapAdd i 0, …, wrapAdd i (k - 1)`. -/
theorem committedAfter_ledger (env : MigEnv)
    (hledg : ∀ (i : Int) (s : DbState), (env.sqlEffect i s).ledger = s.ledger) :
    ∀ (k : Nat) (i : Int) (st : DbState),
      (committedAfter env i st k).ledger =
        st.ledger ++ (List.range k).map (fun j =>
          ⟨wrapAdd i j, (cbStepD env (wrapAdd i j)).name,
            (cbStepD env (wrapAdd i j)).sequenceNo⟩) := by
  intro k
  induction k with
  | zero =>
    intro i st
    simp [committedAfter]
  | succ k ih =>
    intro i st
    rw [committedAfter]
    rw [ih]
    rw [hledg]
    rw [List.range_succ_eq_map]
    simp only [List.map_cons, List.map_map, List.append_assoc, List.singleton_append]
    simp only [wrapAdd]
    have hmap : List.map (fun j =>
          (⟨wrapAdd (wrap32 (i + 1)) j, (cbStepD env (wrapAdd (wrap32 (i + 1)) j)).name,
            (cbStepD env (wrapAdd (wrap32 (i + 1)) j)).sequenceNo⟩ : LedgerRow))
          (List.range k) =
        List.map ((fun j =>
          (⟨wrapAdd i j, (cbStepD env (wrapAdd i j)).name,
            (cbStepD env (wrapAdd i j)).sequenceNo⟩ : LedgerRow)) ∘ Nat.succ)
          (List.range k) := by
      apply List.map_congr_left
      intro j hj
      simp [Function.comp, wrapAdd]
    rw [hmap]

/-- The double wrapping a failing step transaction produces never has
`pgx.ErrNoRows` in its chain, so `processError` leaves it unchanged. -/
theorem errIsPgxNoRows_stepWrap (e : RawErr) :
    errIsPgxNoRows (newErrorM (newErrorM (.raw e) "unable to execute command")
      "callback returned failure") = false := by
  cases e <;> simp [newErrorM, errIsPgxNoRows]

/-- C2 counterexample: in a run whose first step commits and whose second
step's SQL fails, the failing step is rolled back but the ledger's maximum id
after the run is 1, not the 0 it was before the run — refuting the claim that
a step failure leaves the maximum id unchanged from before the run. -/
theorem c2_counterexample :
    RunMigrations envStep2Fails dbZero tblM 5 stEmpty =
      some (some (.ours "unable to execute command" (.pgError "42P01")),
        ⟨[⟨1, stepV1.name, stepV1.sequenceNo⟩], 0⟩,
        [.acquireLock (getMigrationLockId dbZero tblM),
          .createTable (quoteIdentifier tblM), .queryLastId (quoteIdentifier tblM),
          .cbCall 1, .txBegin, .txStepSql stepV1.sql, .txInsert 1 stepV1.name 1,
          .txCommit, .cbCall 2, .txBegin, .txStepSql stepV2.sql, .txRollback,
          .releaseLock (getMigrationLockId dbZero tblM)]) ∧
    ledgerMaxId stEmpty.ledger = 0 ∧
    ledgerMaxId [⟨1, stepV1.name, stepV1.sequenceNo⟩] = 1 :=
  ⟨rfl, rfl, by decide⟩

/-- C2 (amended): every step the executor runs executes its SQL and its
ledger insert inside one transaction.  If `k` steps from the resume index
commit and the next step's SQL or ledger insert fails, the run stops with
that (wrapped) failure, the state is exactly the state after the `k`
committed steps — the failing step's transaction is rolled back whole, so no
ledger row for it persists, and when the failing step is the first attempted
(`k = 0`) the ledger, hence its maximum id, is unchanged from before the run
— and every provider call of the run is at one of the `int32` step indices
`wrapAdd i0 0, …, wrapAdd i0 k`, none beyond the failing one.  When step SQL
does not touch the ledger table, the final ledger is the initial one plus one
row per committed step, with the `int32` step indices as ids. -/
theorem c2_amended_failed_step_rolls_back :
    ∀ (env : MigEnv) (db : Database) (t : GoStr) (st : DbState) (fuel : Nat)
      (i0 : Int) (k : Nat) (e : RawErr),
      env.connAcquireRes = none → env.lockRes = none → env.createRes = none →
      resumeAt env = some i0 → k < fuel →
      (∀ j : Nat, j < k → cbOk env (wrapAdd i0 j) = true ∧
        env.beginRes (wrapAdd i0 j) = none ∧ env.sqlRes (wrapAdd i0 j) = none ∧
        env.insertRes (wrapAdd i0 j) = none ∧ env.commitRes (wrapAdd i0 j) = none) →
      cbOk env (wrapAdd i0 k) = true → env.beginRes (wrapAdd i0 k) = none →
      (env.sqlRes (wrapAdd i0 k) = some e ∨
        (env.sqlRes (wrapAdd i0 k) = none ∧ env.insertRes (wrapAdd i0 k) = some e)) →
      ∃ tr, RunMigrations env db t fuel st =
          some (some (newErrorM (newErrorM (.raw e) "unable to execute command")
              "callback returned failure"),
            committedAfter env i0 st k, tr) ∧
        (∀ j : Int, MigEvent.cbCall j ∈ tr → ∃ m : Nat, m ≤ k ∧ j = wrapAdd i0 m) ∧
        (k = 0 → committedAfter env i0 st k = st) ∧
        ((∀ (i : Int) (s : DbState), (env.sqlEffect i s).ledger = s.ledger) →
          (committedAfter env i0 st k).ledger =
            st.ledger ++ (List.range k).map (fun j =>
              ⟨wrapAdd i0 j, (cbStepD env (wrapAdd i0 j)).name,
                (cbStepD env (wrapAdd i0 j)).sequenceNo⟩)) := by
  intro env db t st fuel i0 k e h1 h2 hc hres hf hsteps hcb hbeg hfail
  obtain ⟨suf, hrun, hbound⟩ := runSteps_fail_at env e k fuel i0 st
    [.createTable (quoteIdentifier t), .queryLastId (quoteIdentifier t)]
    hf hsteps hcb hbeg hfail
  have hconn : runMigrationsConn env db t fuel st =
      some (some (newErrorM (newErrorM (.raw e) "unable to execute command")
          "callback returned failure"),
        committedAfter env i0 st k,
        .acquireLock (getMigrationLockId db t) ::
          ([.createTable (quoteIdentifier t), .queryLastId (quoteIdentifier t)] ++ suf) ++
          [.releaseLock (getMigrationLockId db t)]) := by
    rw [runMigrationsConn]
    rw [resumeAt] at hres
    rcases hscan : env.scanRes with ex | lastId
    · rcases ex with _ | c | m | _ <;> rw [hscan] at hres <;> simp only [] at hres
      · simp only [h2, hc, hscan, handleError, newErrorM, IsNoRowsError, if_true] at *
        have hi0 : i0 = 1 := by
          simp only [Option.some.injEq] at hres
          omega
        subst hi0
        rw [hrun]
      all_goals simp_all
    · rw [hscan] at hres
      simp only [Option.some.injEq] at hres
      subst hres
      simp only [h2, hc, hscan]
      rw [hrun]
  refine ⟨.acquireLock (getMigrationLockId db t) ::
    ([.createTable (quoteIdentifier t), .queryLastId (quoteIdentifier t)] ++ suf) ++
    [.releaseLock (getMigrationLockId db t)], ?_, ?_, ?_, ?_⟩
  · rw [RunMigrations]
    simp only [h1]
    rw [hconn]
    simp only [processErrorM, errIsPgxNoRows_stepWrap, Bool.false_eq_true, if_false]
  · intro j hj
    rcases List.mem_cons.mp hj with hx | hx
    · exact absurd hx (by simp)
    · rcases List.mem_append.mp hx with hy | hy
      · rcases List.mem_append.mp hy with hz | hz
        · simp at hz
        · exact hbound j hz
      · simp at hy
  · intro hk
    subst hk
    rfl
  · intro hledg
    exact committedAfter_ledger env hledg k i0 st

/-- Witness for the amended C2: with one committed step and the second step's
SQL failing, the final ledger is the initial one plus exactly the first
step's row, and the run returns the wrapped failure with the second step's
transaction rolled back. -/
theorem c2_witness :
    (committedAfter envStep2Fails 1 stEmpty 1).ledger =
      stEmpty.ledger ++ (List.range 1).map (fun j =>
        ⟨wrapAdd 1 j, (cbStepD envStep2Fails (wrapAdd 1 j)).name,
          (cbStepD envStep2Fails (wrapAdd 1 j)).sequenceNo⟩) ∧
    RunMigrations envStep2Fails dbZero tblM 5 stEmpty =
      some (some (newErrorM (newErrorM (.raw (.pgError "42P01"))
          "unable to execute command") "callback returned failure"),
        committedAfter envStep2Fails 1 stEmpty 1,
        [.acquireLock (getMigrationLockId dbZero tblM),
          .createTable (quoteIdentifier tblM), .queryLastId (quoteIdentifier tblM),
          .cbCall 1, .txBegin, .txStepSql stepV1.sql, .txInsert 1 stepV1.name 1,
          .txCommit, .cbCall 2, .txBegin, .txStepSql stepV2.sql, .txRollback,
          .releaseLock (getMigrationLockId dbZero tblM)]) := by
  obtain ⟨tr, hrun, hbound, hk, hledg⟩ :=
    c2_amended_failed_step_rolls_back envStep2Fails dbZero tblM stEmpty 5 1 1
      (.pgError "42P01") rfl rfl rfl rfl (by decide) (by decide) (by decide) rfl
      (Or.inl (by decide))
  exact ⟨hledg (fun i s => rfl), rfl⟩

/-- A tag character is never the closing dollar. -/
theorem isTagChar_ne_36 (b : Nat) (h : isTagChar b = true) : b ≠ 36 := by
  intro hb
  subst hb
  simp [isTagChar] at h

/-- The dollar-tag scanner fails when a non-tag, non-dollar byte appears
before the closing dollar. -/
theorem dollarTagLoop_err (c : Nat) (hc : isTagChar c = false) (hc36 : c ≠ 36) :
    ∀ (pre rest : GoStr), (∀ x ∈ pre, isTagChar x = true) →
      dollarTagLoop (pre ++ c :: rest) = .error "invalid SQL content (dollar tag)" := by
  intro pre
  induction pre with
  | nil =>
    intro rest hpre
    rw [dollarTagLoop.eq_def]
    simp [hc36, hc]
  | cons p pre ih =>
    intro rest hpre
    have hp : isTagChar p = true := hpre p (by simp)
    rw [dollarTagLoop.eq_def]
    simp only [List.cons_append]
    rw [if_neg (isTagChar_ne_36 p hp), if_pos hp]
    rw [ih rest (fun x hx => hpre x (by simp [hx]))]

/-- C9: a `$` in statement context whose tag scan meets a byte that is
neither a tag character nor a closing `$` is a fatal parse error (the text is
never passed through); in particular a bare positional parameter such as
`$1 ` or `$1)` aborts the whole parse with "invalid SQL content (dollar
tag)". -/
theorem c9_bad_dollar_tag_is_fatal :
    (∀ (pre : GoStr) (c : Nat) (rest sql : GoStr) (a : Bool) (n : GoStr) (q : Nat)
      (st : List MigrationStep), (∀ x ∈ pre, isTagChar x = true) →
      isTagChar c = false → c ≠ 36 →
      parseSentence (36 :: (pre ++ c :: rest)) sql a n q st =
        .error "invalid SQL content (dollar tag)") ∧
    CreateMigrationStepsFromSqlContent (strBytes "# b\nSELECT $1 + 2;") =
      .error "invalid SQL content (dollar tag)" ∧
    CreateMigrationStepsFromSqlContent (strBytes "# b\nf($1);") =
      .error "invalid SQL content (dollar tag)" := by
  refine ⟨?_, ?_, ?_⟩
  · intro pre c rest sql a n q st hpre hc hc36
    rw [ps_dollar]
    rw [dollarTagLoop_err c hc hc36 pre rest hpre]
  · simp [CreateMigrationStepsFromSqlContent, pl_nil, pl_ignore, pl_header, pl_outside,
      pl_sentence, parseSentence, strBytes, shouldIgnoreLine, skipSpaces, skipEol,
      findEol, trimCutset, isTrimCut, truncStrBytes, decodeRune, encodeRune, RuneError,
      dollarTagLoop, isTagChar]
  · simp [CreateMigrationStepsFromSqlContent, pl_nil, pl_ignore, pl_header, pl_outside,
      pl_sentence, parseSentence, strBytes, shouldIgnoreLine, skipSpaces, skipEol,
      findEol, trimCutset, isTrimCut, truncStrBytes, decodeRune, encodeRune, RuneError,
      dollarTagLoop, isTagChar]

/-- Witness for C9: `$1` followed by a space inside a statement. -/
theorem c9_witness :
    parseSentence [36, 49, 32, 43] [] false [98] 1 [] =
      .error "invalid SQL content (dollar tag)" :=
  c9_bad_dollar_tag_is_fatal.1 [49] 32 [43] [] false [98] 1 []
    (by decide) (by decide) (by decide)

/-- The dollar-tag scanner accepts any run of tag characters closed by `$`,
consuming the tag body and the closing dollar. -/
theorem dollarTagLoop_ok :
    ∀ (tagBody rest : GoStr), (∀ x ∈ tagBody, isTagChar x = true) →
      dollarTagLoop (tagBody ++ 36 :: rest) = .ok (tagBody.length + 1) := by
  intro tagBody
  induction tagBody with
  | nil =>
    intro rest hall
    rw [dollarTagLoop.eq_def]
    simp
  | cons p tb ih =>
    intro rest hall
    have hp : isTagChar p = true := hall p (by simp)
    rw [dollarTagLoop.eq_def]
    simp only [List.cons_append]
    rw [if_neg (isTagChar_ne_36 p hp), if_pos hp]
    rw [ih rest (fun x hx => hall x (by simp [hx]))]
    simp [Nat.add_comm]

/-- Any list is a prefix-match of itself extended on the right. -/
theorem startsWith_self_append : ∀ (l r : GoStr), startsWith (l ++ r) l = true := by
  intro l
  induction l with
  | nil => intro r; rw [startsWith.eq_def]; simp
  | cons a t ih =>
    intro r
    rw [startsWith.eq_def]
    simp [ih r]

/-- `strings.Index` finds a needle that starts with a byte absent from the
part before it exactly at that part's length. -/
theorem stringsIndex_first (needle : GoStr) (hn : needle.head? = some 36) :
    ∀ (body rest : GoStr), 36 ∉ body →
      stringsIndex (body ++ needle ++ rest) needle = (body.length : Int) := by
  intro body
  induction body with
  | nil =>
    intro rest hb
    rw [stringsIndex.eq_def]
    simp [startsWith_self_append]
  | cons b body ih =>
    intro rest hb
    have hb36 : b ≠ 36 := by
      intro h
      exact hb (by simp [h])
    rw [stringsIndex.eq_def]
    rcases needle with _ | ⟨n0, ntail⟩
    · simp at hn
    · simp only [List.head?_cons, Option.some.injEq] at hn
      subst hn
      rw [show startsWith ((b :: body) ++ (36 :: ntail) ++ rest) (36 :: ntail) = false by
        rw [startsWith.eq_def]; simp [hb36]]
      simp only [Bool.false_eq_true, if_false, List.cons_append]
      rw [ih rest (fun h => hb (by simp [h]))]
      rw [if_neg (by omega)]
      simp only [List.length_cons]
      push_cast
      ring

/-- C7: a `$` followed by zero or more tag characters and a closing `$` forms
a tag; the block then runs verbatim until the next occurrence of the identical
tag string, and the whole span — both tags and anything between them,
including `;` and `#` — is copied unchanged into the statement, with parsing
resuming after the closing tag; if the identical tag never reoccurs, the
parse fails with "invalid SQL content (open dollar tag)". -/
theorem c7_dollar_quoted_blocks :
    (∀ (tagBody body rest sql : GoStr) (a : Bool) (n : GoStr) (q : Nat)
        (st : List MigrationStep), (∀ x ∈ tagBody, isTagChar x = true) → 36 ∉ body →
      parseSentence (36 :: (tagBody ++ 36 :: (body ++ (36 :: tagBody ++ [36]) ++ rest)))
          sql a n q st =
        parseSentence rest
          ((if a then sql ++ [32] else sql) ++
            (36 :: (tagBody ++ [36] ++ body ++ (36 :: (tagBody ++ [36])))))
          false n q st) ∧
    (∀ (tagBody after sql : GoStr) (a : Bool) (n : GoStr) (q : Nat)
        (st : List MigrationStep), (∀ x ∈ tagBody, isTagChar x = true) →
      stringsIndex after (36 :: (tagBody ++ [36])) < 0 →
      parseSentence (36 :: (tagBody ++ 36 :: after)) sql a n q st =
        .error "invalid SQL content (open dollar tag)") ∧
    CreateMigrationStepsFromSqlContent (strBytes "# b\nX $t$a;b$t$ Y;") =
      .ok [⟨strBytes "b", 1, strBytes "X $t$a;b$t$ Y;"⟩] := by
  refine ⟨?_, ?_, ?_⟩
  · intro tagBody body rest sql a n q st htag hbody
    rw [ps_dollar]
    simp only [dollarTagLoop_ok tagBody _ htag]
    have hsplit : tagBody ++ 36 :: (body ++ (36 :: tagBody ++ [36]) ++ rest) =
        (tagBody ++ [36]) ++ (body ++ (36 :: tagBody ++ [36]) ++ rest) := by
      simp
    have hlen1 : (tagBody ++ [36]).length = tagBody.length + 1 := by simp
    have htake1 : (tagBody ++ 36 :: (body ++ (36 :: tagBody ++ [36]) ++ rest)).take
        (tagBody.length + 1) = tagBody ++ [36] := by
      rw [hsplit]
      exact List.take_left' hlen1
    have hdrop1 : (tagBody ++ 36 :: (body ++ (36 :: tagBody ++ [36]) ++ rest)).drop
        (tagBody.length + 1) = body ++ (36 :: tagBody ++ [36]) ++ rest := by
      rw [hsplit]
      exact List.drop_left' hlen1
    rw [htake1, hdrop1]
    have hidx : stringsIndex (body ++ (36 :: tagBody ++ [36]) ++ rest)
        (36 :: (tagBody ++ [36])) = (body.length : Int) := by
      have := stringsIndex_first (36 :: (tagBody ++ [36])) (by simp) body rest hbody
      simpa using this
    rw [hidx]
    rw [if_neg (by omega)]
    have htot : tagBody.length + 1 + (body.length : Int).toNat +
        (36 :: (tagBody ++ [36])).length =
        ((tagBody ++ [36]) ++ body ++ (36 :: (tagBody ++ [36]))).length := by
      simp
      omega
    have hsplit2 : tagBody ++ 36 :: (body ++ (36 :: tagBody ++ [36]) ++ rest) =
        ((tagBody ++ [36]) ++ body ++ (36 :: (tagBody ++ [36]))) ++ rest := by
      simp
    have htake2 : (tagBody ++ 36 :: (body ++ (36 :: tagBody ++ [36]) ++ rest)).take
        (tagBody.length + 1 + (body.length : Int).toNat +
          (36 :: (tagBody ++ [36])).length) =
        (tagBody ++ [36]) ++ body ++ (36 :: (tagBody ++ [36])) := by
      rw [hsplit2]
      exact List.take_left' htot.symm
    have hdrop2 : (tagBody ++ 36 :: (body ++ (36 :: tagBody ++ [36]) ++ rest)).drop
        (tagBody.length + 1 + (body.length : Int).toNat +
          (36 :: (tagBody ++ [36])).length) = rest := by
      rw [hsplit2]
      exact List.drop_left' htot.symm
    rw [htake2, hdrop2]
  · intro tagBody after sql a n q st htag hno
    rw [ps_dollar]
    simp only [dollarTagLoop_ok tagBody _ htag]
    have hsplit : tagBody ++ 36 :: after = (tagBody ++ [36]) ++ after := by simp
    have hlen1 : (tagBody ++ [36]).length = tagBody.length + 1 := by simp
    have htake1 : (tagBody ++ 36 :: after).take (tagBody.length + 1) =
        tagBody ++ [36] := by
      rw [hsplit]
      exact List.take_left' hlen1
    have hdrop1 : (tagBody ++ 36 :: after).drop (tagBody.length + 1) = after := by
      rw [hsplit]
      exact List.drop_left' hlen1
    rw [htake1, hdrop1]
    rw [if_pos hno]
  · simp [CreateMigrationStepsFromSqlContent, pl_nil, pl_ignore, pl_header, pl_outside,
      pl_sentence, parseSentence, strBytes, shouldIgnoreLine, skipSpaces, skipEol,
      findEol, trimCutset, isTrimCut, truncStrBytes, decodeRune, encodeRune, RuneError,
      dollarTagLoop, isTagChar, stringsIndex, startsWith]

/-- Witness for C7: a concrete `$t$…$t$` block and a concrete unterminated
tag. -/
theorem c7_witness :
    parseSentence [36, 116, 36, 97, 59, 36, 116, 36, 32, 89] [] false [98] 1 [] =
      parseSentence [32, 89] ([] ++ (36 :: ([116] ++ [36] ++ [97, 59] ++
        (36 :: ([116] ++ [36]))))) false [98] 1 [] ∧
    parseSentence [36, 116, 36, 97, 59] [] false [98] 1 [] =
      .error "invalid SQL content (open dollar tag)" :=
  ⟨c7_dollar_quoted_blocks.1 [116] [97, 59] [32, 89] [] false [98] 1 []
      (by decide) (by decide),
    c7_dollar_quoted_blocks.2.1 [116] [97, 59] [] false [98] 1 []
      (by decide) (by decide)⟩

/-- The single-quote scanner stops at a quote not followed by another quote,
consuming it. -/
theorem sq_quote_end (t : GoStr) (ht : t.head? ≠ some 39) :
    singleQuoteLoop (39 :: t) = .ok 1 := by
  rw [singleQuoteLoop.eq_def]
  rw [dif_neg (by simp)]
  rw [decodeRune_ascii 39 t (by omega)]
  have hre : ¬((39 : Nat) = RuneError ∨ (1 : Nat) = 0) := by simp [RuneError]
  simp only [dif_neg hre, if_true]
  simp only [List.drop_succ_cons, List.drop_zero]
  split
  · simp at ht
  · rfl

/-- The single-quote scanner treats a doubled quote as an escape and
continues after it. -/
theorem sq_quote_doubled (t : GoStr) :
    singleQuoteLoop (39 :: 39 :: t) =
      match singleQuoteLoop t with
      | .error e => .error e
      | .ok n => .ok (2 + n) := by
  rw [singleQuoteLoop.eq_def]
  rw [dif_neg (by simp)]
  rw [decodeRune_ascii 39 (39 :: t) (by omega)]
  have hre : ¬((39 : Nat) = RuneError ∨ (1 : Nat) = 0) := by simp [RuneError]
  simp only [dif_neg hre, if_true]
  simp only [List.drop_succ_cons, List.drop_zero]

/-- The single-quote scanner passes over an ordinary ASCII byte. -/
theorem sq_step_ascii (b : Nat) (hb : b < 128) (hb39 : b ≠ 39) (t : GoStr) :
    singleQuoteLoop (b :: t) =
      match singleQuoteLoop t with
      | .error e => .error e
      | .ok n => .ok (1 + n) := by
  rw [singleQuoteLoop.eq_def]
  rw [dif_neg (by simp)]
  rw [decodeRune_ascii b t hb]
  have hre : ¬(b = RuneError ∨ (1 : Nat) = 0) := by
    simp only [RuneError]
    omega
  simp only [dif_neg hre]
  rw [if_neg hb39]
  simp only [List.drop_succ_cons, List.drop_zero]

/-- A well-formed quoted body followed by a closing quote is scanned whole:
the scanner consumes the body and the terminator. -/
theorem singleQuoteLoop_closed :
    ∀ (b : GoStr), isSQBody b = true → ∀ (rest : GoStr), rest.head? ≠ some 39 →
      singleQuoteLoop (b ++ 39 :: rest) = .ok (b.length + 1) := by
  intro b
  induction b using isSQBody.induct with
  | case1 =>
    intro hb rest hr
    simpa using sq_quote_end rest hr
  | case2 t ih =>
    intro hb rest hr
    rw [isSQBody] at hb
    have := ih hb rest hr
    simp only [List.cons_append]
    rw [sq_quote_doubled (t ++ 39 :: rest)]
    rw [this]
    simp
    omega
  | case3 b t hne ih =>
    intro hb rest hr
    rw [isSQBody.eq_def] at hb
    split at hb
    · simp at hb
      rename_i heq
      simp at heq
    · rename_i t2 heq
      simp only [List.cons.injEq] at heq
      exact absurd heq (by
        intro ⟨h1, h2⟩
        exact hne t2 h1 h2)
    · rename_i b2 t2 heq
      simp only [List.cons.injEq] at heq
      obtain ⟨h1, h2⟩ := heq
      subst h1
      subst h2
      simp only [Bool.and_eq_true, decide_eq_true_eq] at hb
      obtain ⟨⟨hlt, h39⟩, hbody⟩ := hb
      simp only [List.cons_append]
      rw [sq_step_ascii b hlt h39 (t ++ 39 :: rest)]
      rw [ih hbody rest hr]
      simp
      omega

/-- A quoted body that reaches the end of input leaves the scanner with the
open-string error. -/
theorem singleQuoteLoop_unterminated :
    ∀ (b : GoStr), isSQBody b = true →
      singleQuoteLoop b = .error "invalid SQL content (open string)" := by
  intro b
  induction b using isSQBody.induct with
  | case1 =>
    intro _
    rw [singleQuoteLoop.eq_def]
    simp
  | case2 t ih =>
    intro hb
    rw [isSQBody] at hb
    rw [sq_quote_doubled]
    simp only [ih hb]
  | case3 b t hne ih =>
    intro hb
    rw [isSQBody.eq_def] at hb
    split at hb
    · simp at hb
      rename_i heq
      simp at heq
    · rename_i t2 heq
      simp only [List.cons.injEq] at heq
      exact absurd heq (by
        intro ⟨h1, h2⟩
        exact hne t2 h1 h2)
    · rename_i b2 t2 heq
      simp only [List.cons.injEq] at heq
      obtain ⟨h1, h2⟩ := heq
      subst h1
      subst h2
      simp only [Bool.and_eq_true, decide_eq_true_eq] at hb
      obtain ⟨⟨hlt, h39⟩, hbody⟩ := hb
      rw [sq_step_ascii b hlt h39 t]
      simp only [ih hbody]

/-- C6: a single-quoted string begins at a quote and ends at the next quote
unless that quote is doubled (the doubled quote is consumed and the string
continues); the whole quoted span, semicolons and doubled quotes included, is
copied verbatim into the statement buffer; reaching end of input inside the
string is the fatal open-string error; and a statement containing a doubled
quote inside a literal parses as one statement with the sequence intact. -/
theorem c6_single_quote_strings :
    (∀ (b : GoStr), isSQBody b = true → ∀ (rest : GoStr), rest.head? ≠ some 39 →
      ∀ (sql : GoStr) (a : Bool) (n : GoStr) (q : Nat) (st : List MigrationStep),
      parseSentence (39 :: (b ++ 39 :: rest)) sql a n q st =
        parseSentence rest
          ((if a then sql ++ [32] else sql) ++ (39 :: (b ++ [39]))) false n q st) ∧
    (∀ (b : GoStr), isSQBody b = true →
      ∀ (sql : GoStr) (a : Bool) (n : GoStr) (q : Nat) (st : List MigrationStep),
      parseSentence (39 :: b) sql a n q st =
        .error "invalid SQL content (open string)") ∧
    CreateMigrationStepsFromSqlContent
        (strBytes "# b\nSELECT " ++ [39] ++ strBytes "it" ++ [39, 39] ++
          strBytes "s ok" ++ [39, 59]) =
      .ok [⟨strBytes "b", 1,
        strBytes "SELECT " ++ [39] ++ strBytes "it" ++ [39, 39] ++
          strBytes "s ok" ++ [39, 59]⟩] := by
  refine ⟨?_, ?_, ?_⟩
  · intro b hb rest hr sql a n q st
    rw [ps_squote]
    simp only [singleQuoteLoop_closed b hb rest hr]
    have hsplit : b ++ 39 :: rest = (b ++ [39]) ++ rest := by simp
    have hlen : (b ++ [39]).length = b.length + 1 := by simp
    have htake : (b ++ 39 :: rest).take (b.length + 1) = b ++ [39] := by
      rw [hsplit]
      exact List.take_left' hlen
    have hdrop : (b ++ 39 :: rest).drop (b.length + 1) = rest := by
      rw [hsplit]
      exact List.drop_left' hlen
    rw [htake, hdrop]
  · intro b hb sql a n q st
    rw [ps_squote]
    simp only [singleQuoteLoop_unterminated b hb]
  · simp [CreateMigrationStepsFromSqlContent, pl_nil, pl_ignore, pl_header, pl_outside,
      pl_sentence, parseSentence, strBytes, shouldIgnoreLine, skipSpaces, skipEol,
      findEol, trimCutset, isTrimCut, truncStrBytes, decodeRune, encodeRune, RuneError,
      singleQuoteLoop]

/-- Witness for C6 at concrete inputs: the literal body it-doubled-quote-s-ok
followed by a closing quote and a semicolon is copied whole, and the same body
without its closing quote is the open-string error. -/
theorem c6_witness :
    parseSentence (39 :: ([105, 116, 39, 39, 115] ++ 39 :: [59])) [] false [98] 1 [] =
      parseSentence [59] ([] ++ (39 :: ([105, 116, 39, 39, 115] ++ [39])))
        false [98] 1 [] ∧
    parseSentence (39 :: [105, 116, 39, 39, 115]) [] false [98] 1 [] =
      .error "invalid SQL content (open string)" :=
  ⟨c6_single_quote_strings.1 [105, 116, 39, 39, 115] (by decide) [59] (by decide)
      [] false [98] 1 [],
    c6_single_quote_strings.2.1 [105, 116, 39, 39, 115] (by decide)
      [] false [98] 1 []⟩

/-- Leading blanks are counted in full when followed by a non-blank byte. -/
theorem skipSpaces_blanks :
    ∀ (ws : GoStr), (∀ x ∈ ws, x = 32 ∨ x = 9) →
      ∀ (b : Nat) (rest : GoStr), ¬(b = 32 ∨ b = 9) →
        skipSpaces (ws ++ b :: rest) = ws.length := by
  intro ws
  induction ws with
  | nil =>
    intro _ b rest hb
    simp only [List.nil_append, skipSpaces]
    rw [if_neg hb]
    rfl
  | cons w t ih =>
    intro hws b rest hb
    have hw := hws w (by simp)
    simp only [List.cons_append, skipSpaces, List.append_eq]
    rw [if_pos hw, ih (fun x hx => hws x (by simp [hx])) b rest hb]
    simp

/-- No end-of-line bytes are skipped when the head is not CR or LF. -/
theorem skipEol_zero (s : GoStr) (h10 : s.head? ≠ some 10) (h13 : s.head? ≠ some 13) :
    skipEol s = 0 := by
  cases s with
  | nil => rfl
  | cons b t =>
    have hb : ¬(b = 13 ∨ b = 10) := by
      simp only [List.head?] at h10 h13
      simp at h10 h13
      omega
    rw [skipEol, if_neg hb]

/-- The end-of-line search over a clean line finds the terminating LF. -/
theorem findEol_clean :
    ∀ (line : GoStr), (∀ x ∈ line, ¬(x = 10 ∨ x = 13)) →
      ∀ (rest : GoStr), findEol (line ++ 10 :: rest) = line.length := by
  intro line
  induction line with
  | nil =>
    intro _ rest
    simp only [List.nil_append, findEol]
    rw [if_pos (by simp)]
    rfl
  | cons c t ih =>
    intro hline rest
    have hc := hline c (by simp)
    simp only [List.cons_append, findEol, List.append_eq]
    rw [if_neg hc, ih (fun x hx => hline x (by simp [hx])) rest]
    simp

/-- A line starting with a `#` in its first column is never skipped. -/
theorem shouldIgnoreLine_hash (rest : GoStr) : shouldIgnoreLine (35 :: rest) = 0 := by
  rw [shouldIgnoreLine]
  simp [skipSpaces, List.getD]

/-- A line of blanks followed by ordinary statement text is never skipped. -/
theorem shouldIgnoreLine_stmt (ws : GoStr) (hws : ∀ x ∈ ws, x = 32 ∨ x = 9)
    (b : Nat) (rest : GoStr) (hb : ¬(b = 32 ∨ b = 9)) (hb10 : b ≠ 10) (hb13 : b ≠ 13)
    (hb35 : b ≠ 35) :
    shouldIgnoreLine (ws ++ b :: rest) = 0 := by
  rw [shouldIgnoreLine]
  have hskip := skipSpaces_blanks ws hws b rest hb
  have hlen : ¬(ws ++ b :: rest).length ≤ skipSpaces (ws ++ b :: rest) := by
    rw [hskip]
    simp
  have hget : (ws ++ b :: rest).getD (skipSpaces (ws ++ b :: rest)) 0 = b := by
    rw [hskip]
    rw [List.getD_append_right _ _ _ _ (le_refl ws.length)]
    simp [List.getD]
  simp only [if_neg hlen, hget]
  rw [if_neg (by omega), if_neg (by simp [hb35])]

/-- The skipped span of an indented comment line runs to the start of the
following line. -/
theorem indented_hash_skip (w : Nat) (ws line rest : GoStr)
    (hw : w = 32 ∨ w = 9) (hws : ∀ x ∈ ws, x = 32 ∨ x = 9)
    (hline : ∀ x ∈ line, ¬(x = 10 ∨ x = 13))
    (h10 : rest.head? ≠ some 10) (h13 : rest.head? ≠ some 13) :
    shouldIgnoreLine ((w :: ws) ++ 35 :: (line ++ 10 :: rest)) =
      (w :: ws).length + (1 + line.length) + 1 ∧
    ((w :: ws) ++ 35 :: (line ++ 10 :: rest)).drop
      ((w :: ws).length + (1 + line.length) + 1) = rest := by
  have hws2 : ∀ x ∈ w :: ws, x = 32 ∨ x = 9 := by
    intro x hx
    rcases List.mem_cons.mp hx with h | h
    · exact h ▸ hw
    · exact hws x h
  have hskip : skipSpaces ((w :: ws) ++ 35 :: (line ++ 10 :: rest)) = (w :: ws).length :=
    skipSpaces_blanks (w :: ws) hws2 35 (line ++ 10 :: rest) (by omega)
  have hdrop0 : ((w :: ws) ++ 35 :: (line ++ 10 :: rest)).drop (w :: ws).length =
      35 :: (line ++ 10 :: rest) := List.drop_left _ _
  have hfe : findEol (35 :: (line ++ 10 :: rest)) = line.length + 1 := by
    rw [findEol, if_neg (by omega), findEol_clean line hline rest]
  have hsplit : (w :: ws) ++ 35 :: (line ++ 10 :: rest) =
      ((w :: ws) ++ 35 :: line) ++ 10 :: rest := by simp
  have hlen2 : ((w :: ws) ++ 35 :: line).length = (w :: ws).length + (line.length + 1) := by
    simp
    omega
  have hdrop2 : ((w :: ws) ++ 35 :: (line ++ 10 :: rest)).drop
      ((w :: ws).length + (line.length + 1)) = 10 :: rest := by
    rw [hsplit]
    exact List.drop_left' hlen2
  have hse : skipEol (10 :: rest) = 1 := by
    rw [skipEol, if_pos (by omega), skipEol_zero rest h10 h13]
  have hdrop3 : ((w :: ws) ++ 35 :: (line ++ 10 :: rest)).drop
      ((w :: ws).length + (1 + line.length) + 1) = rest := by
    have h3 : (w :: ws) ++ 35 :: (line ++ 10 :: rest) =
        (((w :: ws) ++ 35 :: line) ++ [10]) ++ rest := by simp
    have hlen3 : (((w :: ws) ++ 35 :: line) ++ [10]).length =
        (w :: ws).length + (1 + line.length) + 1 := by
      simp
      omega
    rw [h3]
    exact List.drop_left' hlen3
  refine ⟨?_, hdrop3⟩
  rw [shouldIgnoreLine]
  have hlen : ¬((w :: ws) ++ 35 :: (line ++ 10 :: rest)).length ≤
      skipSpaces ((w :: ws) ++ 35 :: (line ++ 10 :: rest)) := by
    rw [hskip]
    simp
  have hget : ((w :: ws) ++ 35 :: (line ++ 10 :: rest)).getD
      (skipSpaces ((w :: ws) ++ 35 :: (line ++ 10 :: rest))) 0 = 35 := by
    rw [hskip]
    rw [List.getD_append_right _ _ _ _ (le_refl (w :: ws).length)]
    simp [List.getD]
  simp only [if_neg hlen, hget]
  rw [if_neg (by omega)]
  rw [if_pos ⟨trivial, by rw [hskip]; simp⟩]
  rw [hskip, hdrop0, hfe, hdrop2, hse]
  omega

/-- The trailing-byte trimming loop returns a prefix of its input that is
either empty or ends in a valid rune. -/
theorem truncStrBytesLoop_spec :
    ∀ (t : GoStr), truncStrBytesLoop t <+: t ∧
      (truncStrBytesLoop t = [] ∨
        (decodeLastRune (truncStrBytesLoop t)).1 ≠ RuneError) := by
  intro t
  induction t using truncStrBytesLoop.induct with
  | case1 t h0 =>
    rw [truncStrBytesLoop, dif_pos h0]
    exact ⟨List.prefix_rfl, Or.inl (List.length_eq_zero.mp h0)⟩
  | case2 t h0 p hp =>
    rw [truncStrBytesLoop, dif_neg h0]
    simp only [if_pos hp]
    exact ⟨List.prefix_rfl, Or.inr hp⟩
  | case3 t h0 p hp hz =>
    rw [truncStrBytesLoop, dif_neg h0]
    simp only [if_neg hp, if_pos hz]
    exact ⟨List.nil_prefix, Or.inl trivial⟩
  | case4 t h0 p hp hz ih =>
    rw [truncStrBytesLoop, dif_neg h0]
    simp only [if_neg hp, if_neg hz]
    exact ⟨ih.1.trans (List.take_prefix _ _), ih.2⟩

/-- C5 (amended): a block header requires the `#` to be the line's very first
byte.  Such a line names a new block: the name is the line's text up to the
end of line with the cutset of spaces, tabs, dashes, equals signs and `#`
trimmed from both ends, then truncated to 255 bytes, trimming trailing bytes
so that the result never ends inside a multi-byte character; an empty name is
the fatal empty-start-of-block error.  A `#` preceded by blanks is NOT a
header: the whole line is skipped as a comment, leaving the current block and
numbering untouched.  Statement text while no block is open is the fatal
outside-a-block error. -/
theorem c5_amended_block_headers :
    (∀ (title rest name : GoStr) (q : Nat) (st : List MigrationStep),
      (∀ x ∈ title, ¬(x = 10 ∨ x = 13)) →
      parseLoop (35 :: (title ++ 10 :: rest)) name q st =
        if (truncStrBytes (trimCutset (35 :: title)) 255).length = 0 then
          .error "empty start of block comment"
        else
          parseLoop (10 :: rest) (truncStrBytes (trimCutset (35 :: title)) 255) 1 st) ∧
    (∀ (w : Nat) (ws line rest name : GoStr) (q : Nat) (st : List MigrationStep),
      (w = 32 ∨ w = 9) → (∀ x ∈ ws, x = 32 ∨ x = 9) →
      (∀ x ∈ line, ¬(x = 10 ∨ x = 13)) →
      rest.head? ≠ some 10 → rest.head? ≠ some 13 →
      parseLoop ((w :: ws) ++ 35 :: (line ++ 10 :: rest)) name q st =
        parseLoop rest name q st) ∧
    (∀ (s : GoStr) (m : Nat),
      truncStrBytes s m <+: s ∧ (truncStrBytes s m).length ≤ m ∧
      (s.length ≤ m → truncStrBytes s m = s) ∧
      (m < s.length →
        truncStrBytes s m = [] ∨
          (decodeLastRune (truncStrBytes s m)).1 ≠ RuneError)) ∧
    (∀ (ws : GoStr) (b : Nat) (rest : GoStr) (q : Nat) (st : List MigrationStep),
      (∀ x ∈ ws, x = 32 ∨ x = 9) → ¬(b = 32 ∨ b = 9) → b ≠ 10 → b ≠ 13 → b ≠ 35 →
      parseLoop (ws ++ b :: rest) [] q st =
        .error "SQL sentence found outside a block") := by
  refine ⟨?_, ?_, ?_, ?_⟩
  · intro title rest name q st hline
    have h1 : ¬0 < shouldIgnoreLine (35 :: (title ++ 10 :: rest)) := by
      rw [shouldIgnoreLine_hash]
      simp
    rw [pl_header _ _ _ _ h1]
    have hfe : findEol (35 :: (title ++ 10 :: rest)) = title.length + 1 := by
      rw [findEol, if_neg (by omega), findEol_clean title hline rest]
    have htake : (35 :: (title ++ 10 :: rest)).take (title.length + 1) = 35 :: title := by
      rw [List.take_succ_cons]
      congr 1
      exact List.take_left title (10 :: rest)
    have hdrop : (35 :: (title ++ 10 :: rest)).drop (title.length + 1) = 10 :: rest := by
      rw [List.drop_succ_cons]
      exact List.drop_left title (10 :: rest)
    rw [hfe, htake, hdrop]
  · intro w ws line rest name q st hw hws hline h10 h13
    obtain ⟨hs, hd⟩ := indented_hash_skip w ws line rest hw hws hline h10 h13
    simp only [List.cons_append] at hs hd ⊢
    rw [pl_ignore w _ name q st (by rw [hs]; omega)]
    rw [hs, hd]
  · intro s m
    by_cases hsm : s.length ≤ m
    · rw [truncStrBytes, if_pos hsm]
      exact ⟨List.prefix_rfl, hsm, fun _ => rfl, fun hlt => absurd hsm (by omega)⟩
    · rw [truncStrBytes, if_neg hsm]
      obtain ⟨hpre, hval⟩ := truncStrBytesLoop_spec (s.take m)
      refine ⟨hpre.trans (List.take_prefix m s), ?_, fun hle => absurd hle hsm,
        fun _ => hval⟩
      have hle := hpre.length_le
      simp only [List.length_take] at hle
      omega
  · intro ws b rest q st hws hb hb10 hb13 hb35
    cases ws with
    | nil =>
      have h0 := shouldIgnoreLine_stmt [] (by simp) b rest hb hb10 hb13 hb35
      simp only [List.nil_append] at h0 ⊢
      exact pl_outside b rest q st (by omega) hb35
    | cons w t =>
      have hw := hws w (by simp)
      have h0 := shouldIgnoreLine_stmt (w :: t) hws b rest hb hb10 hb13 hb35
      simp only [List.cons_append] at h0 ⊢
      exact pl_outside w (t ++ b :: rest) q st (by omega) (by omega)

/-- C5 counterexample: the line with two leading blanks and then a hash does
NOT start a block named A, although the hash is its first non-blank byte and
no statement is in progress; the following statement text is instead rejected
as being outside a block. -/
theorem c5_counterexample :
    CreateMigrationStepsFromSqlContent (strBytes "  # A\nB;") =
      .error "SQL sentence found outside a block" := by
  simp [CreateMigrationStepsFromSqlContent, pl_nil, pl_ignore, pl_header, pl_outside,
    pl_sentence, parseSentence, strBytes, shouldIgnoreLine, skipSpaces, skipEol,
    findEol, trimCutset, isTrimCut, truncStrBytes, decodeRune, encodeRune, RuneError]

/-- Witness for the amended C5 theorem at concrete inputs: a first-column
header line, a skipped indented comment line, truncation facts, and the
outside-a-block error. -/
theorem c5_witness :
    (parseLoop (35 :: ([32, 65] ++ 10 :: [66, 59])) [] 1 [] =
      if (truncStrBytes (trimCutset (35 :: [32, 65])) 255).length = 0 then
        .error "empty start of block comment"
      else
        parseLoop (10 :: [66, 59]) (truncStrBytes (trimCutset (35 :: [32, 65])) 255)
          1 []) ∧
    (parseLoop ((32 :: []) ++ 35 :: ([65] ++ 10 :: [66, 59])) [98] 1 [] =
      parseLoop [66, 59] [98] 1 []) ∧
    truncStrBytes [65, 66] 1 <+: [65, 66] ∧
    (truncStrBytes [65, 66] 1).length ≤ 1 ∧
    truncStrBytes [65] 2 = [65] ∧
    (truncStrBytes [65, 66] 1 = [] ∨
      (decodeLastRune (truncStrBytes [65, 66] 1)).1 ≠ RuneError) ∧
    parseLoop ([32] ++ 66 :: [59]) [] 1 [] =
      .error "SQL sentence found outside a block" :=
  ⟨c5_amended_block_headers.1 [32, 65] [66, 59] [] 1 [] (by decide),
   c5_amended_block_headers.2.1 32 [] [65] [66, 59] [98] 1 []
     (by decide) (by decide) (by decide) (by decide) (by decide),
   (c5_amended_block_headers.2.2.1 [65, 66] 1).1,
   (c5_amended_block_headers.2.2.1 [65, 66] 1).2.1,
   (c5_amended_block_headers.2.2.1 [65] 2).2.2.1 (by decide),
   (c5_amended_block_headers.2.2.1 [65, 66] 1).2.2.2 (by decide),
   c5_amended_block_headers.2.2.2 [32] 66 [59] 1 []
     (by decide) (by decide) (by decide) (by decide) (by decide)⟩

/-- The leading `#` of a header line is itself in the trim cutset. -/
theorem trimCutset_hash (nm : GoStr) : trimCutset (35 :: nm) = trimCutset nm := by
  simp only [trimCutset, List.dropWhile_cons]
  rw [if_pos (by decide)]

/-- A full header line at the start of the input: the outer loop names a new
block from the trimmed, truncated title and restarts the numbering, or fails
when the name is empty. -/
theorem pl_header_line (title rest name : GoStr) (q : Nat) (st : List MigrationStep)
    (hline : ∀ x ∈ title, ¬(x = 10 ∨ x = 13)) :
    parseLoop (35 :: (title ++ 10 :: rest)) name q st =
      if (truncStrBytes (trimCutset (35 :: title)) 255).length = 0 then
        .error "empty start of block comment"
      else
        parseLoop (10 :: rest) (truncStrBytes (trimCutset (35 :: title)) 255) 1 st := by
  have h1 : ¬0 < shouldIgnoreLine (35 :: (title ++ 10 :: rest)) := by
    rw [shouldIgnoreLine_hash]
    simp
  rw [pl_header _ _ _ _ h1]
  have hfe : findEol (35 :: (title ++ 10 :: rest)) = title.length + 1 := by
    rw [findEol, if_neg (by omega), findEol_clean title hline rest]
  have htake : (35 :: (title ++ 10 :: rest)).take (title.length + 1) = 35 :: title := by
    rw [List.take_succ_cons]
    congr 1
    exact List.take_left title (10 :: rest)
  have hdrop : (35 :: (title ++ 10 :: rest)).drop (title.length + 1) = 10 :: rest := by
    rw [List.drop_succ_cons]
    exact List.drop_left title (10 :: rest)
  rw [hfe, htake, hdrop]

/-- An LF line break is skipped by the outer loop when what follows does not
continue the break. -/
theorem pl_skip_eol (rest2 name : GoStr) (q : Nat) (acc : List MigrationStep)
    (h : skipEol rest2 = 0) :
    parseLoop (10 :: rest2) name q acc = parseLoop rest2 name q acc := by
  have hs : shouldIgnoreLine (10 :: rest2) = 1 := by
    rw [shouldIgnoreLine]
    have hss : skipSpaces (10 :: rest2) = 0 := by
      rw [skipSpaces, if_neg (by omega)]
    simp only [hss]
    rw [if_neg (by simp), if_pos (by simp [List.getD])]
    simp only [List.drop_zero]
    rw [skipEol, if_pos (by omega), h]
  rw [pl_ignore 10 rest2 name q acc (by omega)]
  rw [hs]
  simp

/-- A rendered statement list followed by a clean tail never begins with an
end-of-line byte. -/
theorem skipEol_renderStmts (stmts : List GoStr) (hst : ∀ st ∈ stmts, goodStmt st = true)
    (tail0 : GoStr) (ht : skipEol tail0 = 0) :
    skipEol (renderStmts stmts ++ tail0) = 0 := by
  cases stmts with
  | nil => simpa [renderStmts] using ht
  | cons st stl =>
    have hgood := hst st (by simp)
    simp only [goodStmt, Bool.and_eq_true, decide_eq_true_eq] at hgood
    obtain ⟨hne, hall⟩ := hgood
    cases st with
    | nil => exact absurd rfl hne
    | cons c ct =>
      have hc : plainByte c = true := by
        simp only [List.all_cons, Bool.and_eq_true] at hall
        exact hall.1
      simp only [plainByte, Bool.and_eq_true, decide_eq_true_eq,
        Bool.not_eq_eq_eq_not, Bool.not_true, decide_eq_false_iff_not] at hc
      have hc2 : ¬(c = 13 ∨ c = 10) := by
        have := hc.2
        push_neg at this
        omega
      simp only [renderStmts, List.map_cons, List.flatten_cons, List.cons_append,
        List.append_assoc]
      rw [skipEol, if_neg hc2]

/-- A rendered script never begins with an end-of-line byte. -/
theorem skipEol_renderScript (blocks : List (GoStr × List GoStr)) :
    skipEol (renderScript blocks) = 0 := by
  cases blocks with
  | nil => rfl
  | cons p rest =>
    simp only [renderScript, List.map_cons, List.flatten_cons, renderBlock,
      List.cons_append]
    rw [skipEol, if_neg (by omega)]

/-- The statement loop copies a run of plain bytes into the buffer verbatim. -/
theorem ps_plain_chain :
    ∀ (st : GoStr), (∀ x ∈ st, plainByte x = true) →
      ∀ (sql rest name : GoStr) (q : Nat) (acc : List MigrationStep),
      parseSentence (st ++ rest) sql false name q acc =
        parseSentence rest (sql ++ st) false name q acc := by
  intro st
  induction st with
  | nil =>
    intro _ sql rest name q acc
    simp
  | cons c ct ih =>
    intro hall sql rest name q acc
    have hc : plainByte c = true := hall c (by simp)
    simp only [List.cons_append]
    rw [ps_plain c (ct ++ rest) sql false name q acc hc]
    rw [ih (fun x hx => hall x (by simp [hx])) _ rest name q acc]
    simp

/-- The outer loop consumes a rendered statement list of an open block,
emitting its steps numbered consecutively and advancing the counter. -/
theorem pl_block_stmts :
    ∀ (stmts : List GoStr), (∀ st ∈ stmts, goodStmt st = true) →
      ∀ (tail0 : GoStr), skipEol tail0 = 0 →
      ∀ (nm : GoStr), (truncStrBytes (trimCutset nm) 255).length ≠ 0 →
      ∀ (q : Nat) (acc : List MigrationStep),
      parseLoop (renderStmts stmts ++ tail0) (truncStrBytes (trimCutset nm) 255) q acc =
        parseLoop tail0 (truncStrBytes (trimCutset nm) 255) (q + stmts.length)
          (acc ++ blockSteps nm q stmts) := by
  intro stmts
  induction stmts with
  | nil =>
    intro _ tail0 _ nm _ q acc
    simp [renderStmts, blockSteps]
  | cons st stl ih =>
    intro hst tail0 ht nm hnm q acc
    have hgood := hst st (by simp)
    simp only [goodStmt, Bool.and_eq_true, decide_eq_true_eq] at hgood
    obtain ⟨hne, hall⟩ := hgood
    cases st with
    | nil => exact absurd rfl hne
    | cons c ct =>
      have hc : plainByte c = true := by
        simp only [List.all_cons, Bool.and_eq_true] at hall
        exact hall.1
      have hcp := hc
      simp only [plainByte, Bool.and_eq_true, decide_eq_true_eq,
        Bool.not_eq_eq_eq_not, Bool.not_true, decide_eq_false_iff_not] at hcp
      obtain ⟨hlt, hnot⟩ := hcp
      push_neg at hnot
      have hshape : renderStmts ((c :: ct) :: stl) ++ tail0 =
          c :: (ct ++ 59 :: 10 :: (renderStmts stl ++ tail0)) := by
        simp [renderStmts]
      rw [hshape]
      have h0 : shouldIgnoreLine (c :: (ct ++ 59 :: 10 :: (renderStmts stl ++ tail0))) = 0 := by
        have := shouldIgnoreLine_stmt [] (by simp) c
          (ct ++ 59 :: 10 :: (renderStmts stl ++ tail0))
          (by omega) (by omega) (by omega) (by omega)
        simpa using this
      rw [pl_sentence c _ _ q acc (by omega) (by omega) hnm]
      have hps : parseSentence (c :: (ct ++ 59 :: 10 :: (renderStmts stl ++ tail0)))
          [] false (truncStrBytes (trimCutset nm) 255) q acc =
          .ok (10 :: (renderStmts stl ++ tail0),
            acc ++ [⟨truncStrBytes (trimCutset nm) 255, q, (c :: ct) ++ [59]⟩], q + 1) := by
        have hchain := ps_plain_chain (c :: ct)
          (fun x hx => by
            simp only [List.all_eq_true] at hall
            exact hall x hx)
          [] (59 :: 10 :: (renderStmts stl ++ tail0))
          (truncStrBytes (trimCutset nm) 255) q acc
        simp only [List.cons_append, List.nil_append] at hchain
        rw [hchain]
        rw [ps_semi]
        rw [if_pos (by simp)]
      simp only [hps]
      rw [pl_skip_eol _ _ (q + 1) _ (skipEol_renderStmts stl
        (fun x hx => hst x (by simp [hx])) tail0 ht)]
      rw [ih (fun x hx => hst x (by simp [hx])) tail0 ht nm hnm]
      simp only [blockSteps, List.append_assoc, List.singleton_append, List.length_cons]
      congr 1
      omega

/-- The outer loop parses a whole rendered script into exactly the expected
steps, whatever block is currently open. -/
theorem pl_script :
    ∀ (blocks : List (GoStr × List GoStr)),
      (∀ p ∈ blocks, goodName p.1 = true ∧ ∀ st ∈ p.2, goodStmt st = true) →
      ∀ (name : GoStr) (q : Nat) (acc : List MigrationStep),
      parseLoop (renderScript blocks) name q acc = .ok (acc ++ expectedSteps blocks) := by
  intro blocks
  induction blocks with
  | nil =>
    intro _ name q acc
    simp [renderScript, expectedSteps, pl_nil]
  | cons p rest ih =>
    intro hg name q acc
    obtain ⟨nm, stmts⟩ := p
    obtain ⟨hnm, hst⟩ := hg (nm, stmts) (by simp)
    simp only [goodName, Bool.and_eq_true, decide_eq_true_eq, List.all_eq_true,
      Bool.not_eq_eq_eq_not, Bool.not_true, decide_eq_false_iff_not] at hnm
    obtain ⟨hnoeol, hlen⟩ := hnm
    have hshape : renderScript ((nm, stmts) :: rest) =
        35 :: (nm ++ 10 :: (renderStmts stmts ++ renderScript rest)) := by
      simp [renderScript, renderBlock]
    rw [hshape]
    have hline : ∀ x ∈ nm, ¬(x = 10 ∨ x = 13) := by
      intro x hx
      have := hnoeol x hx
      simp only [Bool.and_eq_true, decide_eq_true_eq] at this
      omega
    rw [pl_header_line nm _ name q acc hline]
    rw [trimCutset_hash]
    rw [if_neg hlen]
    rw [pl_skip_eol _ _ 1 acc (skipEol_renderStmts stmts hst (renderScript rest)
      (skipEol_renderScript rest))]
    rw [pl_block_stmts stmts hst (renderScript rest) (skipEol_renderScript rest)
      nm hlen 1 acc]
    rw [ih (fun x hx => hg x (by simp [hx]))]
    simp [expectedSteps]

/-- One run of the statement loop either emits nothing or appends exactly one
step carrying the current block name and counter value, bumping the counter. -/
theorem parseSentence_emit (s sql : GoStr) (a : Bool) (n : GoStr) (q : Nat)
    (st : List MigrationStep) :
    ∀ (r : GoStr) (st2 : List MigrationStep) (q2 : Nat),
      parseSentence s sql a n q st = .ok (r, st2, q2) →
      (st2 = st ∧ q2 = q) ∨
        (∃ sq, st2 = st ++ [⟨n, q, sq⟩] ∧ q2 = q + 1) := by
  induction s, sql, a, n, q, st using parseSentence.induct <;> intro r st2 q2 h
  · rw [ps_nil] at h
    split at h <;> simp only [Except.ok.injEq, Prod.mk.injEq] at h <;>
      first
        | exact Or.inr ⟨_, h.2.1.symm, h.2.2.symm⟩
        | exact Or.inl ⟨h.2.1.symm, h.2.2.symm⟩
  · rw [ps_nil] at h
    split at h <;> simp only [Except.ok.injEq, Prod.mk.injEq] at h <;>
      first
        | exact Or.inr ⟨_, h.2.1.symm, h.2.2.symm⟩
        | exact Or.inl ⟨h.2.1.symm, h.2.2.symm⟩
  · rename_i b0 rest h1 ih
    rw [ps_space _ _ _ _ _ _ _ h1] at h
    exact ih _ _ _ h
  · rename_i b0 rest h1 h2 ih
    rw [ps_eol _ _ _ _ _ _ _ h1 h2] at h
    exact ih _ _ _ h
  · rename_i rest h1 h2 ih
    rw [ps_hash] at h
    exact ih _ _ _ h
  · rw [ps_semi] at h
    split at h <;> simp only [Except.ok.injEq, Prod.mk.injEq] at h <;>
      first
        | exact Or.inr ⟨_, h.2.1.symm, h.2.2.symm⟩
        | exact Or.inl ⟨h.2.1.symm, h.2.2.symm⟩
  · rw [ps_semi] at h
    split at h <;> simp only [Except.ok.injEq, Prod.mk.injEq] at h <;>
      first
        | exact Or.inr ⟨_, h.2.1.symm, h.2.2.symm⟩
        | exact Or.inl ⟨h.2.1.symm, h.2.2.symm⟩
  · rename_i e heq h1 h2 h3 h4
    rw [ps_squote] at h
    rw [heq] at h
    exact absurd h (by simp)
  · rename_i k heq h1 h2 h3 h4 ih
    rw [ps_squote] at h
    rw [heq] at h
    exact ih _ _ _ h
  · rename_i e heq h1 h2 h3 h4 h5
    rw [ps_dquote] at h
    rw [heq] at h
    exact absurd h (by simp)
  · rename_i k heq h1 h2 h3 h4 h5 ih
    rw [ps_dquote] at h
    rw [heq] at h
    exact ih _ _ _ h
  · rename_i e heq h1 h2 h3 h4 h5 h6
    rw [ps_dollar] at h
    rw [heq] at h
    exact absurd h (by simp)
  · rename_i heq c1 c2 c3 c4 c5 c6 tg dl hd
    rw [ps_dollar] at h
    simp only [heq] at h
    split at h
    · exact absurd h (by simp)
    · rename_i hcond
      exact absurd hd hcond
  · rename_i heq c1 c2 c3 c4 c5 c6 tg dl hd ih
    rw [ps_dollar] at h
    simp only [heq] at h
    split at h
    · rename_i hcond
      exact absurd h (by simp)
    · exact ih _ _ _ (by exact h)
  · rename_i b0 rest h1 h2 h3 h4 h5 h6 h7 r0 rs0 hdec hre
    rw [parseSentence.eq_def] at h
    simp only [dif_neg h1, dif_neg h2, if_neg h3, if_neg h4, if_neg h5, if_neg h6,
      if_neg h7, hdec, dif_pos hre] at h
    exact absurd h (by simp)
  · rename_i b0 rest h1 h2 h3 h4 h5 h6 h7 r0 rs0 hdec hre ih
    rw [parseSentence.eq_def] at h
    simp only [dif_neg h1, dif_neg h2, if_neg h3, if_neg h4, if_neg h5, if_neg h6,
      if_neg h7, hdec, dif_neg hre] at h
    exact ih _ _ _ h

/-- A consecutively numbered run satisfies the run-sequence check. -/
theorem consecFrom_seqRuns :
    ∀ (t : List MigrationStep) (q : Nat), consecFrom q t = true → seqRunsFrom q t = true := by
  intro t
  induction t with
  | nil => intro q _; rfl
  | cons s tl ih =>
    intro q h
    simp only [consecFrom, Bool.and_eq_true, decide_eq_true_eq] at h
    simp only [seqRunsFrom, Bool.or_eq_true, Bool.and_eq_true, decide_eq_true_eq]
    exact Or.inl ⟨h.1, ih (q + 1) h.2⟩

/-- Appending a fresh run restarting at 1 preserves the run-sequence check. -/
theorem seqRuns_append_restart :
    ∀ (acc : List MigrationStep) (q : Nat), seqRunsFrom q acc = true →
      ∀ (ext : List MigrationStep), consecFrom 1 ext = true →
      seqRunsFrom q (acc ++ ext) = true := by
  intro acc
  induction acc with
  | nil =>
    intro q _ ext hext
    simp only [List.nil_append]
    cases ext with
    | nil => rfl
    | cons s tl =>
      simp only [consecFrom, Bool.and_eq_true, decide_eq_true_eq] at hext
      simp only [seqRunsFrom, Bool.or_eq_true, Bool.and_eq_true, decide_eq_true_eq]
      exact Or.inr ⟨hext.1, consecFrom_seqRuns tl 2 hext.2⟩
  | cons s tl ih =>
    intro q hacc ext hext
    simp only [seqRunsFrom, Bool.or_eq_true, Bool.and_eq_true, decide_eq_true_eq] at hacc
    simp only [List.cons_append, seqRunsFrom, Bool.or_eq_true, Bool.and_eq_true,
      decide_eq_true_eq]
    rcases hacc with ⟨h1, h2⟩ | ⟨h1, h2⟩
    · exact Or.inl ⟨h1, ih (q + 1) h2 ext hext⟩
    · exact Or.inr ⟨h1, ih 2 h2 ext hext⟩

/-- The outer loop preserves the run-sequence invariant: whenever it accepts,
its output passes the run-sequence check. -/
theorem parseLoop_seq :
    ∀ (fuelN : Nat) (s : GoStr), s.length ≤ fuelN →
      ∀ (name : GoStr) (q : Nat) (acc out : List MigrationStep),
      (∀ ext, consecFrom q ext = true → seqRunsFrom 1 (acc ++ ext) = true) →
      parseLoop s name q acc = .ok out → seqRunsFrom 1 out = true := by
  intro fuelN
  induction fuelN with
  | zero =>
    intro s hs name q acc out H h
    have hnil : s = [] := List.length_eq_zero.mp (by omega)
    subst hnil
    rw [pl_nil] at h
    obtain rfl : acc = out := by simpa using h
    have := H [] rfl
    simpa using this
  | succ m ih =>
    intro s hs name q acc out H h
    cases s with
    | nil =>
      rw [pl_nil] at h
      obtain rfl : acc = out := by simpa using h
      have := H [] rfl
      simpa using this
    | cons b rest =>
      by_cases h1 : 0 < shouldIgnoreLine (b :: rest)
      · rw [pl_ignore b rest name q acc h1] at h
        refine ih _ ?_ _ _ _ _ H h
        simp only [List.length_drop, List.length_cons]
        simp only [List.length_cons] at hs
        omega
      · by_cases hb : b = 35
        · subst hb
          rw [pl_header rest name q acc h1] at h
          split at h
          · exact absurd h (by simp)
          · have hfe : 0 < findEol (35 :: rest) := by
              rw [findEol, if_neg (by omega)]
              omega
            refine ih _ ?_ _ _ _ _ ?_ h
            · simp only [List.length_drop, List.length_cons]
              simp only [List.length_cons] at hs
              omega
            · intro ext hext
              have hacc : seqRunsFrom 1 acc = true := by
                have := H [] rfl
                simpa using this
              exact seqRuns_append_restart acc 1 hacc ext hext
        · by_cases hn : name.length = 0
          · have : name = [] := List.length_eq_zero.mp hn
            subst this
            rw [pl_outside b rest q acc h1 hb] at h
            exact absurd h (by simp)
          · rw [pl_sentence b rest name q acc h1 hb hn] at h
            rcases hps : parseSentence (b :: rest) [] false name q acc with
              e | ⟨rem, steps2, q2⟩
            · rw [hps] at h
              exact absurd h (by simp)
            · rw [hps] at h
              have h2 : parseLoop rem name q2 steps2 = .ok out := h
              have hrem := parseSentence_rem _ _ _ _ _ _ _ _ _ hps
              have hemit := parseSentence_emit _ _ _ _ _ _ _ _ _ hps
              refine ih rem ?_ name q2 steps2 out ?_ h2
              · simp only [List.length_cons] at hs hrem ⊢
                omega
              · rcases hemit with ⟨h3, h4⟩ | ⟨sq, h3, h4⟩
                · subst h3
                  subst h4
                  exact H
                · subst h3
                  subst h4
                  intro ext hext
                  have hcons : consecFrom q (⟨name, q, sq⟩ :: ext) = true := by
                    simp only [consecFrom, Bool.and_eq_true, decide_eq_true_eq]
                    exact ⟨trivial, hext⟩
                  have := H (⟨name, q, sq⟩ :: ext) hcons
                  simpa [List.append_assoc] using this

/-- The steps contributed by one block count its statements. -/
theorem blockSteps_length (nm : GoStr) :
    ∀ (stmts : List GoStr) (q : Nat), (blockSteps nm q stmts).length = stmts.length := by
  intro stmts
  induction stmts with
  | nil => intro q; rfl
  | cons st stl ih =>
    intro q
    simp only [blockSteps, List.length_cons, ih (q + 1)]

/-- The expected parse output has exactly one step per rendered statement. -/
theorem expectedSteps_length :
    ∀ (blocks : List (GoStr × List GoStr)),
      (expectedSteps blocks).length = (blocks.map (fun p => p.2.length)).sum := by
  intro blocks
  induction blocks with
  | nil => rfl
  | cons p rest ih =>
    obtain ⟨nm, stmts⟩ := p
    simp only [expectedSteps, List.length_append, blockSteps_length, ih,
      List.map_cons, List.sum_cons]

/-- C1: every accepted script's steps pass the run-sequence check (each step
is numbered one past its predecessor or restarts a run at 1), and the rendered
script family makes the correspondence exact: a script of N block headers with
well-formed names and M plain terminated statements parses to exactly the
expected steps, in file order, each block numbered 1, 2, ... from its header,
M steps in total. -/
theorem c1_steps_order_and_numbering :
    (∀ (content : GoStr) (steps : List MigrationStep),
      CreateMigrationStepsFromSqlContent content = .ok steps →
      seqRunsFrom 1 steps = true) ∧
    (∀ (blocks : List (GoStr × List GoStr)),
      (∀ p ∈ blocks, goodName p.1 = true ∧ ∀ st ∈ p.2, goodStmt st = true) →
      CreateMigrationStepsFromSqlContent (renderScript blocks) =
        .ok (expectedSteps blocks) ∧
      (expectedSteps blocks).length = (blocks.map (fun p => p.2.length)).sum) := by
  constructor
  · intro content steps h
    refine parseLoop_seq content.length content (le_refl _) [] 1 [] steps ?_ h
    intro ext hext
    simpa using consecFrom_seqRuns ext 1 hext
  · intro blocks hg
    exact ⟨pl_script blocks hg [] 1 [], expectedSteps_length blocks⟩

/-- Witness for C1 at concrete inputs: the two-statement block script. -/
theorem c1_witness :
    seqRunsFrom 1 [⟨[98], 1, [65, 59]⟩, ⟨[98], 2, [66, 59]⟩] = true ∧
    (CreateMigrationStepsFromSqlContent (renderScript [([98], [[65], [66]])]) =
        .ok (expectedSteps [([98], [[65], [66]])]) ∧
      (expectedSteps [([98], [[65], [66]])]).length =
        ([([98], [[65], [66]])].map (fun p => p.2.length)).sum) :=
  ⟨c1_steps_order_and_numbering.1 (strBytes "# b\nA;B;")
      [⟨[98], 1, [65, 59]⟩, ⟨[98], 2, [66, 59]⟩]
      (by simp [CreateMigrationStepsFromSqlContent, pl_nil, pl_ignore, pl_header,
        pl_outside, pl_sentence, parseSentence, strBytes, shouldIgnoreLine, skipSpaces,
        skipEol, findEol, trimCutset, isTrimCut, truncStrBytes, decodeRune, encodeRune,
        RuneError]),
    c1_steps_order_and_numbering.2 [([98], [[65], [66]])] (by decide)⟩
